import Mathlib

/-!
Verification development for the state-machine (DFA) subsystem of an MCP
server extension: symbol/state/edge data model, declaration builder with
reflexive completion, structural validator with BFS reachability and two
pruning passes, the runtime automaton with per-session cursors, and the
transition scope protocol.

The Python sources are embedded shallowly:
  * `dict`s (which preserve insertion order) become association lists,
    with lookups returning the first matching key;
  * the stable SHA-1 symbol id over the triple (kind, ident, result) is
    modelled by the triple itself (both are injective functions of the
    triple; the code's own invariant states that two symbols with the
    same id must have identical triples);
  * raising code returns `Except`;
  * effect callables are opaque tags whose runtime behaviour (return a
    value, raise, or be cancelled) is supplied externally as a map.
-/

namespace StateFSM

/-- Outcome qualifier of an input symbol (`ResultType` in `types.py`). -/
inductive ResultType
  | success
  | error
deriving DecidableEq

/-- Artifact kind of an input symbol (the `Literal["tool","prompt","resource"]`). -/
inductive Kind
  | tool
  | prompt
  | resource
deriving DecidableEq

/-- Stable symbol id.  In `state_machine.py` this is a SHA-1 over
`kind⟍ident⟍result`; since the id is a deterministic injective function of the
triple, it is modelled by the triple itself. -/
structure SymId where
  kind : Kind
  ident : String
  result : ResultType
deriving DecidableEq

/-- `InputSymbol`: an input-alphabet letter `(kind, ident, result)`. -/
structure InputSymbol where
  kind : Kind
  ident : String
  result : ResultType
deriving DecidableEq

/-- The derived `id` field computed in `__post_init__`. -/
def InputSymbol.id (s : InputSymbol) : SymId :=
  ⟨s.kind, s.ident, s.result⟩

/-- `InputSymbol.for_kind` / `for_tool` / `for_prompt` / `for_resource`. -/
def InputSymbol.for_kind (k : Kind) (ident : String) (r : ResultType) : InputSymbol :=
  ⟨k, ident, r⟩

/-- Effect callbacks are opaque; an `Effect` is a tag whose behaviour is
resolved by an externally supplied behaviour map when a transition fires. -/
abbrev Effect := Nat

/-- δ-edge as in `state_machine.py` (`effect` is excluded from equality in the
Python dataclass; the builder's duplicate checks compare the three identity
fields directly, which is what the embedding's checks do as well). -/
structure Edge where
  from_state : String
  to_state : String
  symbol_id : SymId
  effect : Option Effect := none
deriving DecidableEq

/-- Named state with its list of terminal symbol-ids. -/
structure State where
  name : String
  terminals : List SymId
deriving DecidableEq

/-- First-match association-list lookup (Python `dict.get` / `in`). -/
def alookup {α β : Type} [DecidableEq α] (k : α) : List (α × β) → Option β
  | [] => none
  | p :: t => if p.1 = k then some p.2 else alookup k t

/-- Replace the value stored under key `k` (Python in-place value mutation). -/
def aupdate {α β : Type} [DecidableEq α] (l : List (α × β)) (k : α) (v : β) :
    List (α × β) :=
  l.map (fun p => if p.1 = k then (k, v) else p)

/-- Keys of an association list, in insertion order. -/
def akeys {α β : Type} (l : List (α × β)) : List α :=
  l.map (·.1)

/-- Errors raised by the builder / machine constructor
(`KeyError`, `ValueError`, and the aggregate "Invalid state machine" error). -/
inductive BuildErr
  | keyError (msg : String)
  | valueError (msg : String)
  | invalid (msgs : List String)
deriving DecidableEq

/-- Mutable accumulation state of `_InternalStateMachineBuilder`. -/
structure Builder where
  initial : Option String := none
  states : List (String × State) := []
  edges : List Edge := []
  symbols : List (SymId × InputSymbol) := []
deriving DecidableEq

def Builder.empty : Builder := {}

/-- First half of `add_state`: create the state if missing. -/
def addStateCreate (b : Builder) (name : String) : Builder :=
  if (alookup name b.states).isSome then b
  else { b with states := b.states ++ [(name, ⟨name, []⟩)] }

/-- Second half of `add_state`: the first initial declaration wins, later
conflicting ones are ignored with a warning. -/
def addStateInit (b : Builder) (name : String) (isInitial : Bool) : Builder :=
  if isInitial then
    match b.initial with
    | none => { b with initial := some name }
    | some cur => if cur = name then { b with initial := some name } else b
  else b

/-- `add_state(name, is_initial)`. -/
def addState (b : Builder) (name : String) (isInitial : Bool) : Builder :=
  addStateInit (addStateCreate b name) name isInitial

/-- `_record_symbol`: ensure the symbol is in Σ and return its stable id. -/
def recordSymbol (b : Builder) (sym : InputSymbol) : Builder × SymId :=
  let sid := sym.id
  match alookup sid b.symbols with
  | some _ => (b, sid)
  | none => ({ b with symbols := b.symbols ++ [(sid, sym)] }, sid)

/-- `add_terminal(state, symbol)`: `KeyError` if the state is undeclared;
append the symbol-id to the state's terminal list, deduplicated. -/
def addTerminal (b : Builder) (stateName : String) (sym : InputSymbol) :
    Except BuildErr Builder :=
  match alookup stateName b.states with
  | none => .error (.keyError ("State '" ++ stateName ++ "' not defined"))
  | some st =>
    if sym.id ∈ st.terminals then .ok (recordSymbol b sym).1
    else .ok { (recordSymbol b sym).1 with
      states := aupdate (recordSymbol b sym).1.states stateName
        { st with terminals := st.terminals ++ [sym.id] } }

/-- The duplicate check of `add_edge`: an edge with the same
`(from_state, symbol_id, to_state)` already exists. -/
def dupCheck (edges : List Edge) (f t : String) (sid : SymId) : Bool :=
  edges.any (fun e => decide (e.from_state = f ∧ e.symbol_id = sid ∧ e.to_state = t))

/-- The ambiguity check of `add_edge`: an edge with the same
`(from_state, symbol_id)` but a different `to_state` already exists. -/
def ambCheck (edges : List Edge) (f t : String) (sid : SymId) : Bool :=
  edges.any (fun e => decide (e.from_state = f ∧ e.symbol_id = sid ∧ e.to_state ≠ t))

/-- Body of `add_edge` after the `from`-check and target creation: register
the symbol (`_record_symbol` returns `symbol.id` unconditionally), ignore
duplicate and ambiguous edges with a warning, otherwise append the edge. -/
def addEdgeCore (b : Builder) (f t : String) (sym : InputSymbol)
    (eff : Option Effect) : Builder :=
  if dupCheck (recordSymbol b sym).1.edges f t sym.id then (recordSymbol b sym).1
  else if ambCheck (recordSymbol b sym).1.edges f t sym.id then (recordSymbol b sym).1
  else { (recordSymbol b sym).1 with
    edges := (recordSymbol b sym).1.edges ++ [⟨f, t, sym.id, eff⟩] }

/-- `add_edge(from, to, symbol, effect)`: `KeyError` if `from` is undeclared,
auto-create `to` as a non-initial placeholder, then ignore duplicates and
ambiguous edges; otherwise append the new edge. -/
def addEdge (b : Builder) (fromS toS : String) (sym : InputSymbol)
    (eff : Option Effect) : Except BuildErr Builder :=
  if (alookup fromS b.states).isNone then
    .error (.keyError ("State '" ++ fromS ++ "' not defined"))
  else if (alookup toS b.states).isNone then
    .ok (addEdgeCore (addState b toS false) fromS toS sym eff)
  else
    .ok (addEdgeCore b fromS toS sym eff)

/-- Key of the `present` table in `_complete_reflexive_edges`:
`(from_state, kind, ident)`. -/
abbrev PKey := String × Kind × String

/-- Generic ordered bucket table (Python `dict` of sets):
`bucket = table.setdefault(key, set()); bucket.add(r)`. -/
def addToBucket {κ : Type} [DecidableEq κ] (l : List (κ × List ResultType))
    (k : κ) (r : ResultType) : List (κ × List ResultType) :=
  match l with
  | [] => [(k, [r])]
  | p :: t =>
    if p.1 = k then (p.1, if r ∈ p.2 then p.2 else p.2 ++ [r]) :: t
    else p :: addToBucket t k r

/-- Shared shape of the two outcome-bucketing loops: fold the edge list,
classifying each edge into an optional `(key, result)` contribution. -/
def bucketFold {κ : Type} [DecidableEq κ] (keyres : Edge → Option (κ × ResultType))
    (edges : List Edge) (init : List (κ × List ResultType)) :
    List (κ × List ResultType) :=
  edges.foldl (fun acc e =>
    match keyres e with
    | none => acc
    | some p => addToBucket acc p.1 p.2) init

/-- The `present` table of `_complete_reflexive_edges`: for each
`(from_state, kind, ident)` binding occurring in the edge list, the set of
outcomes already declared (edges whose symbol-id is missing from Σ are
skipped, as in the source). -/
def buildPresent (edges : List Edge) (symbols : List (SymId × InputSymbol)) :
    List (PKey × List ResultType) :=
  bucketFold (fun e =>
    (alookup e.symbol_id symbols).map
      (fun sym => ((e.from_state, sym.kind, sym.ident), sym.result))) edges []

/-- One outcome of one `present` binding: skip outcomes already declared,
synthesize the missing ones as self-loops `from_state → from_state` with no
effect. -/
def completeStep (b : Builder) (k : PKey) (haveRs : List ResultType)
    (r : ResultType) : Except BuildErr Builder :=
  if r ∈ haveRs then Except.ok b
  else addEdge b k.1 k.1 (InputSymbol.for_kind k.2.1 k.2.2 r) none

/-- One `present` binding processed by `_complete_reflexive_edges`: the
outcomes are visited in enum order `[SUCCESS, ERROR]`. -/
def completeKey (b : Builder) (k : PKey) (haveRs : List ResultType) :
    Except BuildErr Builder := do
  let b1 ← completeStep b k haveRs .success
  completeStep b1 k haveRs .error

/-- `_complete_reflexive_edges`: no-op on an empty edge list, otherwise
complete every partially specified binding with self-loops. -/
def completeReflexiveEdges (b : Builder) : Except BuildErr Builder :=
  if b.edges = [] then .ok b
  else (buildPresent b.edges b.symbols).foldlM (fun b p => completeKey b p.1 p.2) b

/-! ## Validator -/

/-- A `(level, message)` validation issue. -/
structure Issue where
  level : String
  message : String
deriving DecidableEq

/-- External registries consulted by the validator: the registered tool and
prompt names, the static resource URIs, and the (external) template-matching
predicate.  `templateMatch u = true` models "there is at least one registered
template and `tmpl.matches(u)` is not `None` for one of them". -/
structure Registries where
  tools : List String
  prompts : List String
  resources : List String
  templateMatch : String → Bool

/-- Availability sets per kind, as returned by
`_collect_available_and_check_refs`. -/
structure Availability where
  tools : List String
  prompts : List String
  resources : List String

/-- `_is_symbol_available`. -/
def symbolAvailable (sym : InputSymbol) (av : Availability) : Bool :=
  match sym.kind with
  | .tool => av.tools.contains sym.ident
  | .prompt => av.prompts.contains sym.ident
  | .resource => av.resources.contains sym.ident

/-- Identifiers of the given kind referenced by any edge (a Python set,
modelled as a deduplicated list in first-occurrence order). -/
def referencedIdents (edges : List Edge) (symbols : List (SymId × InputSymbol))
    (k : Kind) : List String :=
  edges.foldl (fun acc e =>
    match alookup e.symbol_id symbols with
    | none => acc
    | some sym =>
      if sym.kind = k ∧ ¬ acc.contains sym.ident then acc ++ [sym.ident] else acc) []

/-- `_collect_available_and_check_refs`: build the availability sets and one
error per referenced-but-unregistered artifact.  The Python code emits the
missing names in sorted order; the embedding keeps first-occurrence order (the
set of issues, and hence emptiness and membership, is unchanged). -/
def collectAvailableAndCheckRefs (edges : List Edge)
    (symbols : List (SymId × InputSymbol)) (regs : Registries) :
    Availability × List Issue :=
  let toolRefs := referencedIdents edges symbols .tool
  let promptRefs := referencedIdents edges symbols .prompt
  let resourceRefs := referencedIdents edges symbols .resource
  let toolIssues := (toolRefs.filter (fun i => ¬ regs.tools.contains i)).map
    (fun i => Issue.mk "error" ("Referenced tool '" ++ i ++ "' is not registered."))
  let promptIssues := (promptRefs.filter (fun i => ¬ regs.prompts.contains i)).map
    (fun i => Issue.mk "error" ("Referenced prompt '" ++ i ++ "' is not registered."))
  let unmatched := resourceRefs.filter (fun u => ¬ regs.resources.contains u)
  let resourceIdents := regs.resources ++ unmatched.filter regs.templateMatch
  let resourceIssues := (resourceRefs.filter
      (fun u => ¬ resourceIdents.contains u)).map
    (fun u => Issue.mk "error" ("Referenced resource '" ++ u ++ "' is not registered."))
  (⟨regs.tools, regs.prompts, resourceIdents⟩,
   toolIssues ++ promptIssues ++ resourceIssues)

/-- The terminal-flag contribution of one BFS edge: does it land on a state
for which its symbol-id is terminal? -/
def bfsTermFlag (states : List (String × State)) (e : Edge) : Bool :=
  match alookup e.to_state states with
  | some st => decide (e.symbol_id ∈ st.terminals)
  | none => false

/-- Processing of one edge inside the BFS loop, on the
`(queue, seen, flag)` accumulator: skip unknown or unavailable symbols,
record the terminal flag, enqueue unseen known target states. -/
def bfsEdgeStep (states : List (String × State))
    (symbols : List (SymId × InputSymbol)) (av : Availability)
    (acc : List String × List String × Bool) (e : Edge) :
    List String × List String × Bool :=
  match alookup e.symbol_id symbols with
  | none => acc
  | some sym =>
    if ¬ symbolAvailable sym av then acc
    else if (alookup e.to_state states).isSome ∧ ¬ acc.2.1.contains e.to_state then
      (acc.1 ++ [e.to_state], acc.2.1 ++ [e.to_state],
        acc.2.2 || bfsTermFlag states e)
    else (acc.1, acc.2.1, acc.2.2 || bfsTermFlag states e)

/-- One dequeued BFS node of `_compute_reachable_and_terminal_flag`: process
every edge leaving the node (in edge-list order). -/
def bfsVisit (states : List (String × State)) (symbols : List (SymId × InputSymbol))
    (av : Availability) (edgesFrom : List Edge)
    (q seen : List String) (flag : Bool) : List String × List String × Bool :=
  edgesFrom.foldl (bfsEdgeStep states symbols av) (q, seen, flag)

/-- The fuel-indexed BFS worklist loop (`while q:` with a FIFO deque). -/
def bfsGo (states : List (String × State)) (edges : List Edge)
    (symbols : List (SymId × InputSymbol)) (av : Availability) :
    Nat → List String → List String → Bool → List String × Bool
  | 0, _, seen, flag => (seen, flag)
  | _ + 1, [], seen, flag => (seen, flag)
  | n + 1, s :: rest, seen, flag =>
    bfsGo states edges symbols av n
      (bfsVisit states symbols av
        (edges.filter (fun e => decide (e.from_state = s))) rest seen flag).1
      (bfsVisit states symbols av
        (edges.filter (fun e => decide (e.from_state = s))) rest seen flag).2.1
      (bfsVisit states symbols av
        (edges.filter (fun e => decide (e.from_state = s))) rest seen flag).2.2

/-- `_compute_reachable_and_terminal_flag`: BFS from the initial state over
available edges.  Fuel `states.length + 1` dominates the number of dequeues:
every enqueued name beyond the start is a previously unseen state key. -/
def computeReachable (states : List (String × State)) (edges : List Edge)
    (symbols : List (SymId × InputSymbol)) (av : Availability) (start : String) :
    List String × Bool :=
  bfsGo states edges symbols av (states.length + 1) [start] [start] false

/-- The result of the two initial-state guards of `_structural_checks`
(`if not self.initial_state`, which Python takes for `None` and for the
empty string alike). -/
def noInitialResult : List Issue × Availability × List String × Bool :=
  ([Issue.mk "error" "No initial state defined."], ⟨[], [], []⟩, [], false)

/-- One error per unknown symbol-id referenced by an edge.  Python renders the
offending sid inside the message (and sorts the sids); the modelled sid is not
a string, so the message is kept constant, one per distinct unknown sid. -/
def unknownSymIssues (b : Builder) : List Issue :=
  (b.edges.foldl (fun acc e =>
    if (alookup e.symbol_id b.symbols).isNone ∧ ¬ acc.contains e.symbol_id
    then acc ++ [e.symbol_id] else acc) ([] : List SymId)).map
    (fun _ => Issue.mk "error" "Edge references unknown symbol-id.")

/-- The availability table used by the reachability phase. -/
def availOf (b : Builder) (regs : Registries) : Availability :=
  (collectAvailableAndCheckRefs b.edges b.symbols regs).1

/-- The BFS run by the structural phase (only meaningful once the initial
state has been validated). -/
def reachOf (b : Builder) (regs : Registries) (q0 : String) :
    List String × Bool :=
  computeReachable b.states b.edges b.symbols (availOf b regs) q0

/-- `_structural_checks`: issues, availability sets, BFS-visited states and
the reachable-terminal flag. -/
def structuralChecks (b : Builder) (regs : Registries) :
    List Issue × Availability × List String × Bool :=
  match b.initial with
  | none => noInitialResult
  | some q0 =>
    if q0 = "" then noInitialResult
    else if (alookup q0 b.states).isNone then
      ([Issue.mk "error" ("Initial state '" ++ q0 ++ "' not found.")],
        ⟨[], [], []⟩, [], false)
    else
      (unknownSymIssues b ++ (collectAvailableAndCheckRefs b.edges b.symbols regs).2 ++
        (if (reachOf b regs q0).2 then ([] : List Issue)
         else [Issue.mk "error" "No reachable terminal state from initial."]),
       availOf b regs, (reachOf b regs q0).1, (reachOf b regs q0).2)

/-- The names removed by unreachable-state pruning: the declared states not
visited by the BFS. -/
def unreachNames (states : List (String × State)) (reachable : List String) :
    List String :=
  (akeys states).filter (fun n => ¬ reachable.contains n)

/-- The validator's edge list after removing edges touching removed states. -/
def unreachEdges (states : List (String × State)) (edges : List Edge)
    (reachable : List String) : List Edge :=
  edges.filter (fun e =>
    ¬ (unreachNames states reachable).contains e.from_state &&
    ¬ (unreachNames states reachable).contains e.to_state)

/-- `_warn_and_prune_unreachable_states`: remove unvisited states (one warning
each) and the edges touching them (one aggregate warning).  The `Bool` field
records whether the method reassigned the validator's edge-list attribute
(`self.edges = [...]` builds a fresh list instead of updating in place),
severing the aliasing with the builder's own edge list. -/
def pruneUnreachable (states : List (String × State)) (edges : List Edge)
    (reachable : List String) :
    List (String × State) × List Edge × Bool × List Issue :=
  if states = [] then (states, edges, false, [])
  else if unreachNames states reachable = [] then (states, edges, false, [])
  else
    (states.filter (fun p => ¬ (unreachNames states reachable).contains p.1),
     unreachEdges states edges reachable,
     true,
     (unreachNames states reachable).map (fun n =>
       Issue.mk "warning" ("State '" ++ n ++ "' is unreachable from initial and was removed."))
     ++ (if 0 < edges.length - (unreachEdges states edges reachable).length then
       [Issue.mk "warning" ("Pruned " ++
         toString (edges.length - (unreachEdges states edges reachable).length) ++
         " edges referencing removed states.")]
       else ([] : List Issue)))

/-- Symbol-ids of the non-self-loop available edges entering `n`
(the `incoming` map of `_prune_terminal_only_incoming`). -/
def incomingAvail (edges : List Edge) (symbols : List (SymId × InputSymbol))
    (av : Availability) (n : String) : List SymId :=
  (edges.filter (fun e =>
    decide (e.from_state ≠ e.to_state) && decide (e.to_state = n) &&
    (match alookup e.symbol_id symbols with
     | some s => symbolAvailable s av
     | none => false))).map (·.symbol_id)

/-- The states whose outgoing edges are pruned by
`_prune_terminal_only_incoming`. -/
def terminalOnlyNames (states : List (String × State)) (edges : List Edge)
    (symbols : List (SymId × InputSymbol)) (av : Availability)
    (initial : String) : List String :=
  states.filterMap (fun p =>
    if p.1 = initial then none
    else if ¬ edges.any (fun e => decide (e.from_state = p.1)) then none
    else if incomingAvail edges symbols av p.1 = [] then none
    else if (incomingAvail edges symbols av p.1).all
        (fun sid => decide (sid ∈ p.2.terminals)) then some p.1
    else none)

/-- `_prune_terminal_only_incoming`: for every non-initial state with outgoing
edges whose available non-self-loop incoming edges are all terminal for it,
drop all of its outgoing edges (in place), one warning per pruned state. -/
def pruneTerminalOnly (states : List (String × State)) (edges : List Edge)
    (symbols : List (SymId × InputSymbol)) (av : Availability)
    (initialOpt : Option String) : List Edge × List Issue :=
  if states = [] ∨ edges = [] then (edges, [])
  else
    match initialOpt with
    | none => (edges, [])
    | some initial =>
      if terminalOnlyNames states edges symbols av initial = [] then (edges, [])
      else
        (edges.filter (fun e =>
          ¬ (terminalOnlyNames states edges symbols av initial).contains e.from_state),
         (terminalOnlyNames states edges symbols av initial).map (fun n =>
           Issue.mk "warning" ("Outgoing edges from state '" ++ n ++
             "' pruned: only terminal incoming edges present.")))

/-- Result of `StateMachineValidator.validate` as observed by the builder:
the issue list, the (shared, in-place pruned) states dict, and the contents of
the builder's aliased edge list after validation.  When unreachable-state
pruning fires it *rebinds* the validator's edge attribute to a fresh list
(`self.edges = [...]`), so the builder's list is left untouched and the later
in-place terminal-only pruning hits only the rebound list. -/
structure ValidationOutcome where
  issues : List Issue
  statesAfter : List (String × State)
  builderEdges : List Edge
deriving DecidableEq

/-- The terminal-only pruning pass as run inside `_post_checks`: it operates
on the states dict and on the validator's edge list as left by the
unreachable-pruning pass. -/
def postPrune (b : Builder) (regs : Registries) : List Edge × List Issue :=
  pruneTerminalOnly
    (pruneUnreachable b.states b.edges (structuralChecks b regs).2.2.1).1
    (pruneUnreachable b.states b.edges (structuralChecks b regs).2.2.1).2.1
    b.symbols (structuralChecks b regs).2.1 b.initial

/-- `StateMachineValidator.validate`: structural checks, then (only when they
produced no error) the two pruning passes. -/
def validate (b : Builder) (regs : Registries) : ValidationOutcome :=
  if (structuralChecks b regs).1.any (fun i => decide (i.level = "error")) then
    ⟨(structuralChecks b regs).1, b.states, b.edges⟩
  else if b.states = [] then ⟨(structuralChecks b regs).1, b.states, b.edges⟩
  else
    ⟨(structuralChecks b regs).1 ++
      (pruneUnreachable b.states b.edges (structuralChecks b regs).2.2.1).2.2.2 ++
      (postPrune b regs).2,
     (pruneUnreachable b.states b.edges (structuralChecks b regs).2.2.1).1,
     if (pruneUnreachable b.states b.edges (structuralChecks b regs).2.2.1).2.2.1
     then b.edges else (postPrune b regs).1⟩

/-! ## The built automaton -/

/-- Immutable part of the built `StateMachine`: `(q0, Q, Σ, δ)`. -/
structure SM where
  initial : String
  states : List (String × State)
  symbols : List (SymId × InputSymbol)
  edges : List Edge
deriving DecidableEq

/-- `next(iter(states))` — the first key of the dict, `StopIteration` if empty. -/
def firstStateKey : List (String × State) → Except BuildErr String
  | [] => .error (.valueError "StopIteration")
  | p :: _ => .ok p.1

/-- The aggregate error-message list raised by `_validate`. -/
def buildErrs (b1 : Builder) (regs : Registries) : List String :=
  ((validate b1 regs).issues.filter (fun i => decide (i.level = "error"))).map
    (·.message)

/-- Machine construction after successful validation: resolve
`self._initial or next(iter(self._states))` (the `or` also falls through on
the empty string, mirroring Python truthiness), then run the `StateMachine`
constructor's initial-state membership check. -/
def mkMachine (b1 : Builder) (regs : Registries) : Except BuildErr SM := do
  let q0 ← match b1.initial with
    | some s =>
      if s = "" then firstStateKey (validate b1 regs).statesAfter else pure s
    | none => firstStateKey (validate b1 regs).statesAfter
  if (alookup q0 (validate b1 regs).statesAfter).isNone then
    throw (.valueError ("Unknown initial state: " ++ q0))
  else
    pure ⟨q0, (validate b1 regs).statesAfter, b1.symbols,
      (validate b1 regs).builderEdges⟩

/-- `build()`: reflexive completion, validation (raising the aggregate error
when any error-level issue exists), then machine construction. -/
def build (b : Builder) (regs : Registries) : Except BuildErr SM := do
  let b1 ← completeReflexiveEdges b
  if buildErrs b1 regs ≠ [] then
    throw (.invalid (buildErrs b1 regs))
  else
    mkMachine b1 regs

/-! ## Runtime cursors and operations

The mutable part of `StateMachine`: one global cursor plus a per-session map,
addressed through the ambient session id (`_AMBIENT_SESSION_ID`, here an
explicit `Option String` argument).  The coarse lock serialises each
operation; operations are therefore modelled as atomic state transformers. -/

/-- The mutable cursor state owned by a `StateMachine` instance. -/
structure Cursors where
  currentGlobal : String
  bySession : List (String × String)
deriving DecidableEq

/-- Cursor state at construction time: global cursor at `q0`, empty map. -/
def SM.initCursors (m : SM) : Cursors := ⟨m.initial, []⟩

/-- `current_state()`: the ambient session's cursor, lazily initialised to
`q0` (`dict.setdefault`); the global cursor when no session is bound. -/
def currentState (m : SM) (amb : Option String) (cs : Cursors) :
    String × Cursors :=
  match amb with
  | none => (cs.currentGlobal, cs)
  | some sid =>
    match alookup sid cs.bySession with
    | some v => (v, cs)
    | none => (m.initial, { cs with bySession := cs.bySession ++ [(sid, m.initial)] })

/-- Python `d[sid] = v`: overwrite, or insert at the end if unseen. -/
def setSession (cs : Cursors) (sid v : String) : Cursors :=
  if (alookup sid cs.bySession).isSome then
    { cs with bySession := aupdate cs.bySession sid v }
  else
    { cs with bySession := cs.bySession ++ [(sid, v)] }

/-- `reset()`: set the ambient cursor back to `q0`. -/
def resetCur (m : SM) (amb : Option String) (cs : Cursors) : Cursors :=
  match amb with
  | none => { cs with currentGlobal := m.initial }
  | some sid => setSession cs sid m.initial

/-- `set_current_state(name)`: `ValueError` for unknown names, otherwise write
the ambient cursor. -/
def setCurrentState (m : SM) (amb : Option String) (cs : Cursors)
    (name : String) : Except BuildErr Cursors :=
  if (alookup name m.states).isNone then
    .error (.valueError ("Unknown state: " ++ name))
  else
    .ok (match amb with
      | none => { cs with currentGlobal := name }
      | some sid => setSession cs sid name)

/-- `get_edge(symbol_id)`: linear scan of δ for the first edge leaving the
current state on `symbol_id` (reads the current state, with its lazy-init
side effect on the session map). -/
def getEdge (m : SM) (amb : Option String) (cs : Cursors) (sid : SymId) :
    Option Edge × Cursors :=
  (m.edges.find? (fun e =>
    decide (e.from_state = (currentState m amb cs).1 ∧ e.symbol_id = sid)),
   (currentState m amb cs).2)

/-- `is_terminal(symbol_id)`: membership of `symbol_id` in the current
state's terminal list; indexing `self._states_by_name[sname]` raises
`KeyError` when the cursor names an unknown state. -/
def isTerminal (m : SM) (amb : Option String) (cs : Cursors) (sid : SymId) :
    Except BuildErr (Bool × Cursors) :=
  match alookup (currentState m amb cs).1 m.states with
  | none => .error (.keyError (currentState m amb cs).1)
  | some st => .ok (decide (sid ∈ st.terminals), (currentState m amb cs).2)

/-- `available_symbols(kind)`: bucket the outcomes of the current state's
outgoing edges per identifier of the given kind; raise `ValueError` when some
identifier's result space is incomplete, otherwise return the identifiers.
(The Python loop raises at the first incomplete bucket and returns the
complete identifiers as a set; observably it raises iff some bucket is
incomplete and otherwise returns exactly the bucket keys.) -/
def availableSymbolsKeyres (m : SM) (sname : String) (kind : Kind)
    (e : Edge) : Option (String × ResultType) :=
  if e.from_state ≠ sname then none
  else match alookup e.symbol_id m.symbols with
    | none => none
    | some sym =>
      if sym.kind ≠ kind then none
      else some (sym.ident, sym.result)

/-- The per-identifier outcome buckets collected from the edges leaving
`sname`. -/
def symbolBuckets (m : SM) (sname : String) (kind : Kind) :
    List (String × List ResultType) :=
  bucketFold (availableSymbolsKeyres m sname kind) m.edges []

def availableSymbols (m : SM) (kind : Kind) (amb : Option String)
    (cs : Cursors) : Except BuildErr (List String × Cursors) :=
  if (symbolBuckets m (currentState m amb cs).1 kind).all
      (fun p => decide (ResultType.success ∈ p.2 ∧ ResultType.error ∈ p.2)) then
    .ok ((symbolBuckets m (currentState m amb cs).1 kind).map (·.1),
      (currentState m amb cs).2)
  else
    .error (.valueError "Inconsistent state machine: incomplete result space.")

/-! ## Transition scope

`TransitionScope.__aexit__` wraps one external operation: `exc = none` models
a normal exit of the wrapped block, `exc = some e` an abnormal exit with the
raised failure `e`.  Effect callables are opaque tags; their runtime behaviour
is supplied as a map `Effect → EffBeh`. -/

/-- A failure raised by the wrapped operation. -/
inductive Exc
  | user (code : Nat)
  | runtimeUnknown
deriving DecidableEq

/-- Behaviour of an effect callable when invoked: return a (possibly `None`)
value, raise an `Exception`-derived error, or raise `asyncio.CancelledError`. -/
inductive EffBeh
  | returns (v : Option Nat)
  | raises
  | cancels
deriving DecidableEq

/-- What `apply_callback_with_context` did (all variants are logged only). -/
inductive CbOutcome
  | skipped
  | ran
  | loggedResult (v : Nat)
  | loggedExc
  | loggedCancel
deriving DecidableEq

/-- Exception classes that can escape a callback invocation. -/
inductive CbErr
  | exc
  | cancelled
deriving DecidableEq

/-- The body of the `try` in `apply_callback_with_context`: invoke the
callback (and await it if needed); it returns a value or raises. -/
def runCallbackBody (eff : Effect) (beh : Effect → EffBeh) :
    Except CbErr (Option Nat) :=
  match beh eff with
  | .returns v => .ok v
  | .raises => .error .exc
  | .cancels => .error .cancelled

/-- `apply_callback_with_context`: skip absent callbacks; catch
`asyncio.CancelledError` and `Exception` from the invocation, logging them;
log and discard a non-`None` result. -/
def applyCallbackWithContext (eff : Option Effect) (beh : Effect → EffBeh) :
    Except CbErr CbOutcome :=
  match eff with
  | none => .ok .skipped
  | some f =>
    match runCallbackBody f beh with
    | .ok none => .ok .ran
    | .ok (some v) => .ok (.loggedResult v)
    | .error .cancelled => .ok .loggedCancel
    | .error .exc => .ok .loggedExc

/-- `TransitionScope._apply(symbol_id)`: look up the edge for the selected
symbol from the current state; if absent, log the consistency error (the
message formatting reads `current_state()`) and proceed as a no-op; if
present, update the cursor to the target and run the effect best-effort
(the surrounding `except Exception` also only logs). -/
def scopeApply (m : SM) (amb : Option String) (cs : Cursors) (sid : SymId)
    (beh : Effect → EffBeh) : Except BuildErr Cursors :=
  match (getEdge m amb cs sid).1 with
  | none => .ok (currentState m amb (getEdge m amb cs sid).2).2
  | some e => do
    let cs2 ← setCurrentState m amb (getEdge m amb cs sid).2 e.to_state
    match applyCallbackWithContext e.effect beh with
    | .ok _ => pure cs2
    | .error .exc => pure cs2
    | .error .cancelled => .error (.valueError "CancelledError")

/-- What `__aexit__` hands back to the caller. -/
inductive ScopeOut
  | completed
  | raised (mappedFrom : Exc)
deriving DecidableEq

/-- The symbol-id selected by `__aexit__`: SUCCESS on normal exit, ERROR on
abnormal exit. -/
def scopeSid (kind : Kind) (ident : String) (exc : Option Exc) : SymId :=
  if exc.isNone then (InputSymbol.for_kind kind ident .success).id
  else (InputSymbol.for_kind kind ident .error).id

/-- Steps 2–3 of `__aexit__` after the transition was applied: return `False`
(no suppression) on the normal path; on the abnormal path, log (reading
`current_state()` once more) and re-raise the mapped failure. -/
def scopeFinish (m : SM) (amb : Option String) (cs3 : Cursors)
    (exc : Option Exc) : Except BuildErr (Cursors × ScopeOut) :=
  match exc with
  | none => pure (cs3, .completed)
  | some e => pure ((currentState m amb cs3).2, .raised e)

/-- `TransitionScope.__aexit__` for a `step(kind, ident)` scope: select the
SUCCESS symbol on normal exit and the ERROR symbol on abnormal exit, apply the
transition, reset if the selected symbol is terminal in the new current
state, then return `False` (no suppression) on the normal path or re-raise
the original failure wrapped by the exception mapper on the abnormal path. -/
def scopeExit (m : SM) (amb : Option String) (cs : Cursors) (kind : Kind)
    (ident : String) (exc : Option Exc) (beh : Effect → EffBeh) :
    Except BuildErr (Cursors × ScopeOut) := do
  let cs1 ← scopeApply m amb cs (scopeSid kind ident exc) beh
  let t ← isTerminal m amb cs1 (scopeSid kind ident exc)
  scopeFinish m amb (if t.1 then resetCur m amb t.2 else t.2) exc

/-! ## Association-list lemmas -/

theorem alookup_append_left {α β : Type} [DecidableEq α] {l : List (α × β)}
    (l' : List (α × β)) {k : α} {v : β} (h : alookup k l = some v) :
    alookup k (l ++ l') = some v := by
  induction l with
  | nil => simp [alookup] at h
  | cons p t ih =>
    rw [List.cons_append]
    rw [alookup] at h ⊢
    split at h
    · simp_all
    · rename_i hne
      rw [if_neg hne]
      exact ih h

theorem alookup_isSome_append {α β : Type} [DecidableEq α] {l : List (α × β)}
    (l' : List (α × β)) {k : α} (h : (alookup k l).isSome) :
    (alookup k (l ++ l')).isSome := by
  obtain ⟨v, hv⟩ := Option.isSome_iff_exists.mp h
  exact Option.isSome_iff_exists.mpr ⟨v, alookup_append_left l' hv⟩

theorem alookup_mem {α β : Type} [DecidableEq α] {l : List (α × β)} {k : α}
    {v : β} (h : alookup k l = some v) : (k, v) ∈ l := by
  induction l with
  | nil => simp [alookup] at h
  | cons p t ih =>
    rw [alookup] at h
    split at h
    · rename_i he
      cases h
      cases p
      cases he
      exact List.mem_cons_self _ _
    · exact List.mem_cons_of_mem _ (ih h)

theorem alookup_isSome_iff_mem_keys {α β : Type} [DecidableEq α]
    {l : List (α × β)} {k : α} : (alookup k l).isSome ↔ k ∈ akeys l := by
  induction l with
  | nil => simp [alookup, akeys]
  | cons p t ih =>
    rw [alookup, akeys, List.map_cons, List.mem_cons]
    by_cases hk : p.1 = k
    · simp [hk]
    · rw [if_neg hk]
      rw [akeys] at ih
      rw [ih]
      constructor
      · exact Or.inr
      · rintro (h | h)
        · exact absurd h.symm hk
        · exact h

theorem alookup_append_singleton_self {α β : Type} [DecidableEq α]
    (l : List (α × β)) (k : α) (v : β) :
    (alookup k (l ++ [(k, v)])).isSome := by
  induction l with
  | nil => simp [alookup]
  | cons p t ih =>
    rw [List.cons_append, alookup]
    split
    · simp
    · exact ih

theorem alookup_filter_key {α β : Type} [DecidableEq α] {l : List (α × β)}
    {k : α} {v : β} (P : α → Bool) (h : alookup k l = some v)
    (hk : P k = true) :
    alookup k (l.filter (fun p => P p.1)) = some v := by
  induction l with
  | nil => simp [alookup] at h
  | cons p t ih =>
    rw [alookup] at h
    rw [List.filter_cons]
    split at h
    · rename_i he
      rw [he, hk]
      simp only [if_true]
      rw [alookup, if_pos he]
      exact h
    · rename_i hne
      split
      · rw [alookup, if_neg hne]
        exact ih h
      · exact ih h

/-! ## Builder operation lemmas -/

theorem addStateInit_states (b : Builder) (n : String) (i : Bool) :
    (addStateInit b n i).states = b.states := by
  rw [addStateInit]
  split
  · split
    · rfl
    · split <;> rfl
  · rfl

theorem addStateInit_edges (b : Builder) (n : String) (i : Bool) :
    (addStateInit b n i).edges = b.edges := by
  rw [addStateInit]
  split
  · split
    · rfl
    · split <;> rfl
  · rfl

theorem addStateInit_symbols (b : Builder) (n : String) (i : Bool) :
    (addStateInit b n i).symbols = b.symbols := by
  rw [addStateInit]
  split
  · split
    · rfl
    · split <;> rfl
  · rfl

theorem addStateCreate_spec (b : Builder) (n : String) :
    (addStateCreate b n).edges = b.edges ∧
      (addStateCreate b n).symbols = b.symbols ∧
      (addStateCreate b n).initial = b.initial ∧
      (((alookup n b.states).isSome ∧ (addStateCreate b n).states = b.states) ∨
        (¬ (alookup n b.states).isSome ∧
          (addStateCreate b n).states = b.states ++ [(n, ⟨n, []⟩)])) := by
  rw [addStateCreate]
  by_cases hA : (alookup n b.states).isSome
  · rw [if_pos hA]
    exact ⟨rfl, rfl, rfl, Or.inl ⟨hA, rfl⟩⟩
  · rw [if_neg hA]
    exact ⟨rfl, rfl, rfl, Or.inr ⟨hA, rfl⟩⟩

/-- Combined footprint of `add_state`: edges and symbols untouched, states
either unchanged (the name was present) or extended by the fresh state. -/
theorem addState_spec (b : Builder) (n : String) (i : Bool) :
    (addState b n i).edges = b.edges ∧ (addState b n i).symbols = b.symbols ∧
      (((alookup n b.states).isSome ∧ (addState b n i).states = b.states) ∨
        (¬ (alookup n b.states).isSome ∧
          (addState b n i).states = b.states ++ [(n, ⟨n, []⟩)])) := by
  obtain ⟨he, hy, _, hst⟩ := addStateCreate_spec b n
  refine ⟨?_, ?_, ?_⟩
  · rw [addState, addStateInit_edges, he]
  · rw [addState, addStateInit_symbols, hy]
  · rw [addState, addStateInit_states]
    exact hst

theorem addState_edges (b : Builder) (n : String) (i : Bool) :
    (addState b n i).edges = b.edges :=
  (addState_spec b n i).1

theorem addState_symbols (b : Builder) (n : String) (i : Bool) :
    (addState b n i).symbols = b.symbols :=
  (addState_spec b n i).2.1

theorem addState_states_mono {b : Builder} (n : String) (i : Bool) {k : String}
    (h : (alookup k b.states).isSome) :
    (alookup k (addState b n i).states).isSome := by
  rcases (addState_spec b n i).2.2 with ⟨_, hs⟩ | ⟨_, hs⟩ <;> rw [hs]
  · exact h
  · exact alookup_isSome_append _ h

theorem addState_states_self (b : Builder) (n : String) (i : Bool) :
    (alookup n (addState b n i).states).isSome := by
  rcases (addState_spec b n i).2.2 with ⟨hA, hs⟩ | ⟨_, hs⟩ <;> rw [hs]
  · exact hA
  · exact alookup_append_singleton_self _ _ _

theorem addState_false_initial (b : Builder) (n : String) :
    (addState b n false).initial = b.initial :=
  (addStateCreate_spec b n).2.2.1

/-- Footprint of `_record_symbol`: only the symbol table can change, and the
recorded id ends up present with entries either old or the fresh
`(sym.id, sym)` pair. -/
theorem recordSymbol_spec (b : Builder) (sym : InputSymbol) :
    (recordSymbol b sym).2 = sym.id ∧
      (recordSymbol b sym).1.states = b.states ∧
      (recordSymbol b sym).1.edges = b.edges ∧
      (recordSymbol b sym).1.initial = b.initial ∧
      ((recordSymbol b sym).1.symbols = b.symbols ∨
        (recordSymbol b sym).1.symbols = b.symbols ++ [(sym.id, sym)]) ∧
      (alookup sym.id (recordSymbol b sym).1.symbols).isSome := by
  rw [recordSymbol]
  cases h : alookup sym.id b.symbols with
  | some v =>
    exact ⟨rfl, rfl, rfl, rfl, Or.inl rfl, by simp [h]⟩
  | none =>
    exact ⟨rfl, rfl, rfl, rfl, Or.inr rfl, alookup_append_singleton_self _ _ _⟩

/-- Bundle of facts about a successful `add_edge`:
states only grow and contain both endpoints; the symbol table only grows, the
symbol's id is present and new entries can only be the recorded pair; the edge
list is unchanged (duplicate or ambiguous declaration) or extended by exactly
the new edge, and in the latter case no earlier edge shared the
`(from, symbol_id)` pair; and in every case an edge with the requested
`(from, symbol_id)` exists afterwards. -/
theorem addEdge_ok_spec {b : Builder} {f t : String} {sym : InputSymbol}
    {eff : Option Effect} {b' : Builder}
    (h : addEdge b f t sym eff = .ok b') :
    b'.initial = b.initial ∧
      (∀ k, (alookup k b.states).isSome → (alookup k b'.states).isSome) ∧
      (alookup f b'.states).isSome ∧ (alookup t b'.states).isSome ∧
      (∀ k, (alookup k b.symbols).isSome → (alookup k b'.symbols).isSome) ∧
      (alookup sym.id b'.symbols).isSome ∧
      (∀ p ∈ b'.symbols, p ∈ b.symbols ∨ p = (sym.id, sym)) ∧
      (b'.edges = b.edges ∨
        (b'.edges = b.edges ++ [⟨f, t, sym.id, eff⟩] ∧
          ∀ e ∈ b.edges, ¬ (e.from_state = f ∧ e.symbol_id = sym.id))) ∧
      (∃ e ∈ b'.edges, e.from_state = f ∧ e.symbol_id = sym.id) := by
  have core : ∀ bb : Builder,
      (alookup f bb.states).isSome →
      (alookup t bb.states).isSome →
      (bb.states = b.states ∨ bb.states = b.states ++ [(t, ⟨t, []⟩)]) →
      bb.edges = b.edges → bb.symbols = b.symbols → bb.initial = b.initial →
      b' = addEdgeCore bb f t sym eff →
      (b'.initial = b.initial ∧
        (∀ k, (alookup k b.states).isSome → (alookup k b'.states).isSome) ∧
        (alookup f b'.states).isSome ∧ (alookup t b'.states).isSome ∧
        (∀ k, (alookup k b.symbols).isSome → (alookup k b'.symbols).isSome) ∧
        (alookup sym.id b'.symbols).isSome ∧
        (∀ p ∈ b'.symbols, p ∈ b.symbols ∨ p = (sym.id, sym)) ∧
        (b'.edges = b.edges ∨
          (b'.edges = b.edges ++ [⟨f, t, sym.id, eff⟩] ∧
            ∀ e ∈ b.edges, ¬ (e.from_state = f ∧ e.symbol_id = sym.id))) ∧
        (∃ e ∈ b'.edges, e.from_state = f ∧ e.symbol_id = sym.id)) := by
    intro bb hbf hbt hbs hbe hby hbi hcore
    obtain ⟨_, hrs, hre, hri, hry, hrid⟩ := recordSymbol_spec bb sym
    have hsymmono : ∀ k, (alookup k bb.symbols).isSome →
        (alookup k (recordSymbol bb sym).1.symbols).isSome := by
      intro k hk
      rcases hry with hy | hy <;> rw [hy]
      · exact hk
      · exact alookup_isSome_append _ hk
    have hsymmem : ∀ p ∈ (recordSymbol bb sym).1.symbols,
        p ∈ bb.symbols ∨ p = (sym.id, sym) := by
      intro p hp
      rcases hry with hy | hy
      · exact Or.inl (hy ▸ hp)
      · rw [hy] at hp
        rcases List.mem_append.mp hp with h1 | h1
        · exact Or.inl h1
        · exact Or.inr (List.mem_singleton.mp h1)
    have hstates : ∀ k, (alookup k b.states).isSome →
        (alookup k b'.states).isSome := by
      intro k hk
      have hk2 : (alookup k bb.states).isSome := by
        rcases hbs with hs | hs <;> rw [hs]
        · exact hk
        · exact alookup_isSome_append _ hk
      have : b'.states = bb.states := by
        rw [hcore, addEdgeCore]
        split
        · rw [hrs]
        · split
          · rw [hrs]
          · rw [hrs]
      rw [this]
      exact hk2
    have hbstates : b'.states = bb.states := by
      rw [hcore, addEdgeCore]
      split
      · rw [hrs]
      · split
        · rw [hrs]
        · rw [hrs]
    have hbsymbols : b'.symbols = (recordSymbol bb sym).1.symbols := by
      rw [hcore, addEdgeCore]
      split
      · rfl
      · split
        · rfl
        · rfl
    have hbinit : b'.initial = b.initial := by
      have : b'.initial = (recordSymbol bb sym).1.initial := by
        rw [hcore, addEdgeCore]
        split
        · rfl
        · split
          · rfl
          · rfl
      rw [this, hri, hbi]
    refine ⟨hbinit, hstates, ?_, ?_, ?_, ?_, ?_, ?_, ?_⟩
    · rw [hbstates]
      exact hbf
    · rw [hbstates]
      exact hbt
    · intro k hk
      rw [hbsymbols]
      exact hsymmono k (hby ▸ hk)
    · rw [hbsymbols]
      exact hrid
    · intro p hp
      rw [hbsymbols] at hp
      rcases hsymmem p hp with h1 | h1
      · exact Or.inl (hby ▸ h1)
      · exact Or.inr h1
    · rw [hcore, addEdgeCore]
      by_cases hd : dupCheck (recordSymbol bb sym).1.edges f t sym.id
      · rw [if_pos hd, hre, hbe]
        exact Or.inl rfl
      · rw [if_neg hd]
        by_cases ha : ambCheck (recordSymbol bb sym).1.edges f t sym.id
        · rw [if_pos ha, hre, hbe]
          exact Or.inl rfl
        · rw [if_neg ha]
          refine Or.inr ⟨by rw [hre, hbe], ?_⟩
          intro e he hcon
          rw [hre, hbe] at hd ha
          by_cases het : e.to_state = t
          · exact hd (by
              rw [dupCheck, List.any_eq_true]
              exact ⟨e, he, by simp [hcon.1, hcon.2, het]⟩)
          · exact ha (by
              rw [ambCheck, List.any_eq_true]
              exact ⟨e, he, by simp [hcon.1, hcon.2, het]⟩)
    · rw [hcore, addEdgeCore]
      by_cases hd : dupCheck (recordSymbol bb sym).1.edges f t sym.id
      · rw [if_pos hd]
        rw [dupCheck, List.any_eq_true] at hd
        obtain ⟨e, he, hprop⟩ := hd
        rw [decide_eq_true_eq] at hprop
        exact ⟨e, he, hprop.1, hprop.2.1⟩
      · rw [if_neg hd]
        by_cases ha : ambCheck (recordSymbol bb sym).1.edges f t sym.id
        · rw [if_pos ha]
          rw [ambCheck, List.any_eq_true] at ha
          obtain ⟨e, he, hprop⟩ := ha
          rw [decide_eq_true_eq] at hprop
          exact ⟨e, he, hprop.1, hprop.2.1⟩
        · rw [if_neg ha]
          refine ⟨⟨f, t, sym.id, eff⟩, ?_, rfl, rfl⟩
          simp
  rw [addEdge] at h
  by_cases hf : (alookup f b.states).isNone
  · rw [if_pos hf] at h
    exact absurd h (by simp)
  · rw [if_neg hf] at h
    have hfs : (alookup f b.states).isSome := by
      cases hx : alookup f b.states
      · exact absurd (by simp [hx]) hf
      · simp
    by_cases ht : (alookup t b.states).isNone
    · rw [if_pos ht] at h
      obtain rfl : addEdgeCore (addState b t false) f t sym eff = b' :=
        Except.ok.inj h
      obtain ⟨he, hy, hst⟩ := addState_spec b t false
      refine core (addState b t false) ?_ ?_ ?_ he hy
        (addState_false_initial b t) rfl
      · exact addState_states_mono t false hfs
      · exact addState_states_self b t false
      · rcases hst with ⟨hA, hs⟩ | ⟨_, hs⟩
        · exact Or.inl hs
        · exact Or.inr hs
    · rw [if_neg ht] at h
      obtain rfl : addEdgeCore b f t sym eff = b' := Except.ok.inj h
      have hts : (alookup t b.states).isSome := by
        cases hx : alookup t b.states
        · exact absurd (by simp [hx]) ht
        · simp
      exact core b hfs hts (Or.inl rfl) rfl rfl rfl rfl

theorem aupdate_alookup_isSome {α β : Type} [DecidableEq α]
    {l : List (α × β)} (k0 : α) (v : β) {k : α}
    (h : (alookup k l).isSome) : (alookup k (aupdate l k0 v)).isSome := by
  induction l with
  | nil => simp [alookup] at h
  | cons p t ih =>
    rw [aupdate, List.map_cons]
    rw [alookup] at h
    by_cases hp : p.1 = k0
    · rw [if_pos hp, alookup]
      by_cases hk : k0 = k
      · rw [if_pos hk]
        simp
      · rw [if_neg hk]
        split at h
        · rename_i hpk
          exact absurd (hp ▸ hpk) hk
        · exact ih h
    · rw [if_neg hp, alookup]
      split at h
      · rename_i hpk
        rw [if_pos hpk]
        simp
      · rename_i hpk
        rw [if_neg hpk]
        exact ih h

/-- Footprint of a successful `add_terminal`: edges and initial untouched,
states keep (at least) their keys, symbols only grow. -/
theorem addTerminal_ok_spec {b : Builder} {s : String} {sym : InputSymbol}
    {b' : Builder} (h : addTerminal b s sym = .ok b') :
    b'.edges = b.edges ∧ b'.initial = b.initial ∧
      (∀ k, (alookup k b.states).isSome → (alookup k b'.states).isSome) ∧
      (∀ k, (alookup k b.symbols).isSome → (alookup k b'.symbols).isSome) ∧
      (∀ p ∈ b'.symbols, p ∈ b.symbols ∨ p = (sym.id, sym)) := by
  obtain ⟨_, hrs, hre, hri, hry, _⟩ := recordSymbol_spec b sym
  have hsymmono : ∀ k, (alookup k b.symbols).isSome →
      (alookup k (recordSymbol b sym).1.symbols).isSome := by
    intro k hk
    rcases hry with hy | hy <;> rw [hy]
    · exact hk
    · exact alookup_isSome_append _ hk
  have hsymmem : ∀ p ∈ (recordSymbol b sym).1.symbols,
      p ∈ b.symbols ∨ p = (sym.id, sym) := by
    intro p hp
    rcases hry with hy | hy
    · exact Or.inl (hy ▸ hp)
    · rw [hy] at hp
      rcases List.mem_append.mp hp with h1 | h1
      · exact Or.inl h1
      · exact Or.inr (List.mem_singleton.mp h1)
  rw [addTerminal] at h
  split at h
  · exact absurd h (by simp)
  · split at h
    · obtain rfl := Except.ok.inj h
      refine ⟨hre, hri, ?_, hsymmono, hsymmem⟩
      intro k hk
      rw [hrs]
      exact hk
    · obtain rfl := Except.ok.inj h
      refine ⟨hre, hri, ?_, hsymmono, hsymmem⟩
      intro k hk
      have h2 : (alookup k (recordSymbol b sym).1.states).isSome := by
        rw [hrs]
        exact hk
      exact aupdate_alookup_isSome s _ h2

/-! ## Determinism (δ is a partial function) -/

/-- At most one edge per `(from_state, symbol_id)` pair. -/
def Deterministic (E : List Edge) : Prop :=
  E.Pairwise (fun a c => ¬ (a.from_state = c.from_state ∧ a.symbol_id = c.symbol_id))

theorem deterministic_addEdge {b : Builder} {f t : String} {sym : InputSymbol}
    {eff : Option Effect} {b' : Builder}
    (h : addEdge b f t sym eff = .ok b') (hd : Deterministic b.edges) :
    Deterministic b'.edges := by
  rcases (addEdge_ok_spec h).2.2.2.2.2.2.2.1 with he | ⟨he, hnew⟩
  · rw [he]
    exact hd
  · rw [he]
    rw [Deterministic, List.pairwise_append]
    refine ⟨hd, List.pairwise_singleton _ _, ?_⟩
    intro a ha c hc
    rw [List.mem_singleton] at hc
    subst hc
    intro hcon
    exact hnew a ha ⟨hcon.1, hcon.2⟩

/-- Builder states reachable through the public declaration API. -/
inductive Reach : Builder → Prop
  | empty : Reach Builder.empty
  | state {b : Builder} (n : String) (i : Bool) :
      Reach b → Reach (addState b n i)
  | terminal {b b' : Builder} (s : String) (sym : InputSymbol) :
      Reach b → addTerminal b s sym = .ok b' → Reach b'
  | edge {b b' : Builder} (f t : String) (sym : InputSymbol) (eff : Option Effect) :
      Reach b → addEdge b f t sym eff = .ok b' → Reach b'

/-- Every API-reachable builder state is deterministic. -/
theorem deterministic_of_reach {b : Builder} (h : Reach b) :
    Deterministic b.edges := by
  induction h with
  | empty => exact List.Pairwise.nil
  | state n i _ ih =>
    rw [Deterministic, addState_edges]
    exact ih
  | terminal s sym _ hok ih =>
    rw [Deterministic, (addTerminal_ok_spec hok).1]
    exact ih
  | edge f t sym eff _ hok ih => exact deterministic_addEdge hok ih

/-! ## Builder well-formedness -/

/-- Well-formedness of a builder state, established by the declaration API:
every edge endpoint is a declared state, every symbol-table entry is keyed by
its symbol's derived id, and every edge's symbol-id is recorded in Σ. -/
def BWF (b : Builder) : Prop :=
  (∀ e ∈ b.edges, (alookup e.from_state b.states).isSome ∧
      (alookup e.to_state b.states).isSome) ∧
  (∀ p ∈ b.symbols, InputSymbol.id p.2 = p.1) ∧
  (∀ e ∈ b.edges, (alookup e.symbol_id b.symbols).isSome)

theorem bwf_empty : BWF Builder.empty := by
  refine ⟨?_, ?_, ?_⟩ <;> intro x hx <;> simp [Builder.empty] at hx

theorem bwf_addState {b : Builder} (n : String) (i : Bool) (h : BWF b) :
    BWF (addState b n i) := by
  obtain ⟨h1, h2, h3⟩ := h
  obtain ⟨he, hy, _⟩ := addState_spec b n i
  refine ⟨?_, ?_, ?_⟩
  · intro e hme
    rw [he] at hme
    exact ⟨addState_states_mono n i (h1 e hme).1,
      addState_states_mono n i (h1 e hme).2⟩
  · intro p hp
    rw [hy] at hp
    exact h2 p hp
  · intro e hme
    rw [he] at hme
    rw [hy]
    exact h3 e hme

theorem bwf_addTerminal {b b' : Builder} {s : String} {sym : InputSymbol}
    (hok : addTerminal b s sym = .ok b') (h : BWF b) : BWF b' := by
  obtain ⟨h1, h2, h3⟩ := h
  obtain ⟨he, _, hsmono, hymono, hymem⟩ := addTerminal_ok_spec hok
  refine ⟨?_, ?_, ?_⟩
  · intro e hme
    rw [he] at hme
    exact ⟨hsmono _ (h1 e hme).1, hsmono _ (h1 e hme).2⟩
  · intro p hp
    rcases hymem p hp with h4 | h4
    · exact h2 p h4
    · rw [h4]
  · intro e hme
    rw [he] at hme
    exact hymono _ (h3 e hme)

theorem bwf_addEdge {b b' : Builder} {f t : String} {sym : InputSymbol}
    {eff : Option Effect} (hok : addEdge b f t sym eff = .ok b') (h : BWF b) :
    BWF b' := by
  obtain ⟨h1, h2, h3⟩ := h
  obtain ⟨_, hsmono, hfs, hts, hymono, hyid, hymem, hecase, _⟩ :=
    addEdge_ok_spec hok
  have hmem : ∀ e ∈ b'.edges, e ∈ b.edges ∨ e = (⟨f, t, sym.id, eff⟩ : Edge) := by
    intro e hme
    rcases hecase with hc | ⟨hc, _⟩ <;> rw [hc] at hme
    · exact Or.inl hme
    · rcases List.mem_append.mp hme with h4 | h4
      · exact Or.inl h4
      · exact Or.inr (List.mem_singleton.mp h4)
  refine ⟨?_, ?_, ?_⟩
  · intro e hme
    rcases hmem e hme with h4 | h4
    · exact ⟨hsmono _ (h1 e h4).1, hsmono _ (h1 e h4).2⟩
    · rw [h4]
      exact ⟨hfs, hts⟩
  · intro p hp
    rcases hymem p hp with h4 | h4
    · exact h2 p h4
    · rw [h4]
  · intro e hme
    rcases hmem e hme with h4 | h4
    · exact hymono _ (h3 e h4)
    · rw [h4]
      exact hyid

theorem bwf_of_reach {b : Builder} (h : Reach b) : BWF b := by
  induction h with
  | empty => exact bwf_empty
  | @state b n i _ ih => exact bwf_addState n i ih
  | @terminal b b' s sym _ hok ih => exact bwf_addTerminal hok ih
  | @edge b b' f t sym eff _ hok ih => exact bwf_addEdge hok ih

/-! ## Bucket-table lemmas -/

/-- Result `r` is recorded under key `k` in the bucket table. -/
def InBuckets {κ : Type} (l : List (κ × List ResultType)) (k : κ)
    (r : ResultType) : Prop :=
  ∃ rs, (k, rs) ∈ l ∧ r ∈ rs

theorem inBuckets_addToBucket_self {κ : Type} [DecidableEq κ]
    (l : List (κ × List ResultType)) (k : κ) (r : ResultType) :
    InBuckets (addToBucket l k r) k r := by
  induction l with
  | nil => exact ⟨[r], List.mem_singleton_self _, List.mem_singleton_self _⟩
  | cons p t ih =>
    rw [addToBucket]
    by_cases hp : p.1 = k
    · rw [if_pos hp]
      refine ⟨if r ∈ p.2 then p.2 else p.2 ++ [r], ?_, ?_⟩
      · rw [hp]
        exact List.mem_cons_self _ _
      · by_cases hr : r ∈ p.2
        · rw [if_pos hr]
          exact hr
        · rw [if_neg hr]
          exact List.mem_append_right _ (List.mem_singleton_self _)
    · rw [if_neg hp]
      obtain ⟨rs, hmem, hr⟩ := ih
      exact ⟨rs, List.mem_cons_of_mem _ hmem, hr⟩

theorem inBuckets_addToBucket_mono {κ : Type} [DecidableEq κ]
    {l : List (κ × List ResultType)} {k0 : κ} {r0 : ResultType}
    (k : κ) (r : ResultType) (h : InBuckets l k0 r0) :
    InBuckets (addToBucket l k r) k0 r0 := by
  induction l with
  | nil =>
    obtain ⟨rs, hmem, _⟩ := h
    simp at hmem
  | cons p t ih =>
    obtain ⟨rs, hmem, hr⟩ := h
    rw [addToBucket]
    by_cases hp : p.1 = k
    · rw [if_pos hp]
      rcases List.mem_cons.mp hmem with hh | hh
      · refine ⟨if r ∈ p.2 then p.2 else p.2 ++ [r], ?_, ?_⟩
        · have hk0 : k0 = p.1 := by rw [← hh]
          rw [hk0]
          exact List.mem_cons_self _ _
        · have hrs : rs = p.2 := by
            have : (k0, rs).2 = p.2 := by rw [hh]
            exact this
          by_cases hrp : r ∈ p.2
          · rw [if_pos hrp]
            exact hrs ▸ hr
          · rw [if_neg hrp]
            exact List.mem_append_left _ (hrs ▸ hr)
      · exact ⟨rs, List.mem_cons_of_mem _ hh, hr⟩
    · rw [if_neg hp]
      rcases List.mem_cons.mp hmem with hh | hh
      · exact ⟨rs, hh ▸ List.mem_cons_self _ _, hr⟩
      · obtain ⟨rs2, hmem2, hr2⟩ := ih ⟨rs, hh, hr⟩
        exact ⟨rs2, List.mem_cons_of_mem _ hmem2, hr2⟩

theorem inBuckets_addToBucket_cases {κ : Type} [DecidableEq κ]
    {l : List (κ × List ResultType)} {k0 k : κ} {r0 r : ResultType}
    (h : InBuckets (addToBucket l k r) k0 r0) :
    (k0 = k ∧ r0 = r) ∨ InBuckets l k0 r0 := by
  induction l with
  | nil =>
    obtain ⟨rs, hmem, hr⟩ := h
    rw [addToBucket, List.mem_singleton] at hmem
    have hk : k0 = k := congrArg Prod.fst hmem
    have hrs : rs = [r] := congrArg Prod.snd hmem
    rw [hrs, List.mem_singleton] at hr
    exact Or.inl ⟨hk, hr⟩
  | cons p t ih =>
    obtain ⟨rs, hmem, hr⟩ := h
    rw [addToBucket] at hmem
    by_cases hp : p.1 = k
    · rw [if_pos hp] at hmem
      rcases List.mem_cons.mp hmem with hh | hh
      · have hk : k0 = p.1 := congrArg Prod.fst hh
        have hrs : rs = if r ∈ p.2 then p.2 else p.2 ++ [r] :=
          congrArg Prod.snd hh
        by_cases hrp : r ∈ p.2
        · rw [hrs, if_pos hrp] at hr
          exact Or.inr ⟨p.2, by rw [hk]; exact List.mem_cons_self _ _, hr⟩
        · rw [hrs, if_neg hrp] at hr
          rcases List.mem_append.mp hr with hh2 | hh2
          · exact Or.inr ⟨p.2, by rw [hk]; exact List.mem_cons_self _ _, hh2⟩
          · exact Or.inl ⟨hk.trans hp, List.mem_singleton.mp hh2⟩
      · exact Or.inr ⟨rs, List.mem_cons_of_mem _ hh, hr⟩
    · rw [if_neg hp] at hmem
      rcases List.mem_cons.mp hmem with hh | hh
      · exact Or.inr ⟨rs, hh ▸ List.mem_cons_self _ _, hr⟩
      · rcases ih ⟨rs, hh, hr⟩ with hc | ⟨rs2, hmem2, hr2⟩
        · exact Or.inl hc
        · exact Or.inr ⟨rs2, List.mem_cons_of_mem _ hmem2, hr2⟩

theorem addToBucket_keys_cases {κ : Type} [DecidableEq κ]
    (l : List (κ × List ResultType)) (k : κ) (r : ResultType) :
    (k ∈ akeys l ∧ akeys (addToBucket l k r) = akeys l) ∨
      (k ∉ akeys l ∧ akeys (addToBucket l k r) = akeys l ++ [k]) := by
  induction l with
  | nil => exact Or.inr ⟨by simp [akeys], by simp [addToBucket, akeys]⟩
  | cons p t ih =>
    rw [addToBucket]
    by_cases hp : p.1 = k
    · rw [if_pos hp]
      refine Or.inl ⟨?_, ?_⟩
      · rw [akeys, List.map_cons, hp]
        exact List.mem_cons_self _ _
      · rw [akeys, akeys, List.map_cons, List.map_cons]
    · rw [if_neg hp]
      rcases ih with ⟨hmem, heq⟩ | ⟨hmem, heq⟩
      · refine Or.inl ⟨?_, ?_⟩
        · rw [akeys, List.map_cons]
          exact List.mem_cons_of_mem _ hmem
        · rw [akeys, List.map_cons, akeys, List.map_cons]
          rw [akeys] at heq
          rw [heq]
          rfl
      · refine Or.inr ⟨?_, ?_⟩
        · rw [akeys, List.map_cons, List.mem_cons]
          rintro (hh | hh)
          · exact hp hh.symm
          · exact hmem hh
        · rw [akeys, List.map_cons, akeys, List.map_cons]
          rw [akeys] at heq
          rw [heq]
          rfl

theorem addToBucket_keys_nodup {κ : Type} [DecidableEq κ]
    {l : List (κ × List ResultType)} (k : κ) (r : ResultType)
    (h : (akeys l).Nodup) : (akeys (addToBucket l k r)).Nodup := by
  rcases addToBucket_keys_cases l k r with ⟨_, heq⟩ | ⟨hmem, heq⟩
  · rw [heq]
    exact h
  · rw [heq]
    rw [List.nodup_append]
    exact ⟨h, List.nodup_singleton _, by
      intro a ha hb
      rw [List.mem_singleton] at hb
      exact hmem (hb ▸ ha)⟩

theorem addToBucket_ne_nil {κ : Type} [DecidableEq κ]
    {l : List (κ × List ResultType)} (k : κ) (r : ResultType)
    (h : ∀ p ∈ l, p.2 ≠ []) : ∀ p ∈ addToBucket l k r, p.2 ≠ [] := by
  induction l with
  | nil =>
    intro p hp
    rw [addToBucket, List.mem_singleton] at hp
    rw [hp]
    simp
  | cons q t ih =>
    intro p hp
    rw [addToBucket] at hp
    by_cases hq : q.1 = k
    · rw [if_pos hq] at hp
      rcases List.mem_cons.mp hp with hh | hh
      · rw [hh]
        by_cases hrq : r ∈ q.2
        · rw [if_pos hrq]
          exact h q (List.mem_cons_self _ _)
        · rw [if_neg hrq]
          simp
      · exact h p (List.mem_cons_of_mem _ hh)
    · rw [if_neg hq] at hp
      rcases List.mem_cons.mp hp with hh | hh
      · rw [hh]
        exact h q (List.mem_cons_self _ _)
      · exact ih (fun p2 hp2 => h p2 (List.mem_cons_of_mem _ hp2)) p hh

theorem bucket_eq_of_nodup {κ : Type} {l : List (κ × List ResultType)}
    (h : (akeys l).Nodup) {k : κ} {rs1 rs2 : List ResultType}
    (h1 : (k, rs1) ∈ l) (h2 : (k, rs2) ∈ l) : rs1 = rs2 := by
  induction l with
  | nil => simp at h1
  | cons p t ih =>
    rw [akeys, List.map_cons, List.nodup_cons] at h
    rcases List.mem_cons.mp h1 with hh1 | hh1 <;>
      rcases List.mem_cons.mp h2 with hh2 | hh2
    · have h12 := hh1.trans hh2.symm
      exact congrArg Prod.snd h12
    · exfalso
      apply h.1
      have hk : p.1 = k := (congrArg Prod.fst hh1).symm
      rw [hk]
      exact List.mem_map_of_mem Prod.fst hh2
    · exfalso
      apply h.1
      have hk : p.1 = k := (congrArg Prod.fst hh2).symm
      rw [hk]
      exact List.mem_map_of_mem Prod.fst hh1
    · exact ih h.2 hh1 hh2

theorem bucketFold_cons {κ : Type} [DecidableEq κ]
    (keyres : Edge → Option (κ × ResultType)) (e : Edge) (t : List Edge)
    (init : List (κ × List ResultType)) :
    bucketFold keyres (e :: t) init =
      bucketFold keyres t (match keyres e with
        | none => init
        | some p => addToBucket init p.1 p.2) := by
  rw [bucketFold, List.foldl_cons, bucketFold]

theorem bucketFold_mono {κ : Type} [DecidableEq κ]
    {keyres : Edge → Option (κ × ResultType)} (edges : List Edge)
    {init : List (κ × List ResultType)} {k : κ} {r : ResultType}
    (h : InBuckets init k r) : InBuckets (bucketFold keyres edges init) k r := by
  induction edges generalizing init with
  | nil => exact h
  | cons e t ih =>
    rw [bucketFold_cons]
    cases hke : keyres e with
    | none => exact ih h
    | some p => exact ih (inBuckets_addToBucket_mono p.1 p.2 h)

theorem bucketFold_mem {κ : Type} [DecidableEq κ]
    {keyres : Edge → Option (κ × ResultType)} {edges : List Edge}
    (init : List (κ × List ResultType)) {e : Edge} {k : κ} {r : ResultType}
    (he : e ∈ edges) (hke : keyres e = some (k, r)) :
    InBuckets (bucketFold keyres edges init) k r := by
  induction edges generalizing init with
  | nil => simp at he
  | cons e0 t ih =>
    rw [bucketFold_cons]
    rcases List.mem_cons.mp he with hh | hh
    · rw [← hh, hke]
      exact bucketFold_mono t (inBuckets_addToBucket_self init k r)
    · exact ih _ hh

theorem bucketFold_cases {κ : Type} [DecidableEq κ]
    {keyres : Edge → Option (κ × ResultType)} {edges : List Edge}
    {init : List (κ × List ResultType)} {k : κ} {r : ResultType}
    (h : InBuckets (bucketFold keyres edges init) k r) :
    InBuckets init k r ∨ ∃ e ∈ edges, keyres e = some (k, r) := by
  induction edges generalizing init with
  | nil => exact Or.inl h
  | cons e0 t ih =>
    rw [bucketFold_cons] at h
    cases hke : keyres e0 with
    | none =>
      rw [hke] at h
      rcases ih h with hc | ⟨e, hme, hkee⟩
      · exact Or.inl hc
      · exact Or.inr ⟨e, List.mem_cons_of_mem _ hme, hkee⟩
    | some p =>
      rw [hke] at h
      rcases ih h with hc | ⟨e, hme, hkee⟩
      · rcases inBuckets_addToBucket_cases hc with ⟨hk, hr⟩ | hc2
        · exact Or.inr ⟨e0, List.mem_cons_self _ _, by rw [hke, hk, hr]⟩
        · exact Or.inl hc2
      · exact Or.inr ⟨e, List.mem_cons_of_mem _ hme, hkee⟩

theorem bucketFold_keys_nodup {κ : Type} [DecidableEq κ]
    {keyres : Edge → Option (κ × ResultType)} (edges : List Edge)
    {init : List (κ × List ResultType)} (h : (akeys init).Nodup) :
    (akeys (bucketFold keyres edges init)).Nodup := by
  induction edges generalizing init with
  | nil => exact h
  | cons e0 t ih =>
    rw [bucketFold_cons]
    cases hke : keyres e0 with
    | none => exact ih h
    | some p => exact ih (addToBucket_keys_nodup p.1 p.2 h)

theorem bucketFold_ne_nil {κ : Type} [DecidableEq κ]
    {keyres : Edge → Option (κ × ResultType)} (edges : List Edge)
    {init : List (κ × List ResultType)} (h : ∀ p ∈ init, p.2 ≠ []) :
    ∀ p ∈ bucketFold keyres edges init, p.2 ≠ [] := by
  induction edges generalizing init with
  | nil => exact h
  | cons e0 t ih =>
    rw [bucketFold_cons]
    cases hke : keyres e0 with
    | none => exact ih h
    | some p => exact ih (addToBucket_ne_nil p.1 p.2 h)

/-! ## Reflexive-completion correctness -/

/-- The `present`-table key contributed by an edge (its symbol-id carries the
triple, so the key can be read off the id). -/
def keyOf (e : Edge) : PKey :=
  (e.from_state, e.symbol_id.kind, e.symbol_id.ident)

/-- Per-binding completeness of an edge list: every `(from, kind, ident)`
binding that has an edge has edges for both outcomes from the same state. -/
def Complete (E : List Edge) : Prop :=
  ∀ e ∈ E, ∀ r : ResultType, ∃ e2 ∈ E,
    e2.from_state = e.from_state ∧
    e2.symbol_id = ⟨e.symbol_id.kind, e.symbol_id.ident, r⟩

/-- Under `BWF`, the symbol looked up for an edge carries exactly the
components of the edge's symbol-id triple. -/
theorem bwf_lookup_sym {b : Builder} (hb : BWF b) {e : Edge}
    (he : e ∈ b.edges) :
    ∃ sym, alookup e.symbol_id b.symbols = some sym ∧
      sym.kind = e.symbol_id.kind ∧ sym.ident = e.symbol_id.ident ∧
      sym.result = e.symbol_id.result := by
  obtain ⟨sym, hsym⟩ := Option.isSome_iff_exists.mp (hb.2.2 e he)
  have hid : InputSymbol.id sym = e.symbol_id := hb.2.1 _ (alookup_mem hsym)
  rw [InputSymbol.id] at hid
  refine ⟨sym, hsym, ?_, ?_, ?_⟩
  · exact congrArg SymId.kind hid
  · exact congrArg SymId.ident hid
  · exact congrArg SymId.result hid

theorem buildPresent_forward {b : Builder} (hb : BWF b) {e : Edge}
    (he : e ∈ b.edges) :
    InBuckets (buildPresent b.edges b.symbols) (keyOf e) e.symbol_id.result := by
  obtain ⟨sym, hsym, hk, hi, hr⟩ := bwf_lookup_sym hb he
  refine bucketFold_mem [] he ?_
  rw [hsym]
  simp only [Option.map_some']
  rw [keyOf, hk, hi, hr]

theorem buildPresent_backward {b : Builder} (hb : BWF b) {k : PKey}
    {r : ResultType} (h : InBuckets (buildPresent b.edges b.symbols) k r) :
    ∃ e ∈ b.edges, e.from_state = k.1 ∧ e.symbol_id = ⟨k.2.1, k.2.2, r⟩ := by
  rcases bucketFold_cases h with hc | ⟨e, hme, hke⟩
  · obtain ⟨rs, hmem, _⟩ := hc
    simp at hmem
  · cases hsym : alookup e.symbol_id b.symbols with
    | none => rw [hsym] at hke; simp at hke
    | some sym =>
      rw [hsym] at hke
      simp only [Option.map_some'] at hke
      obtain ⟨sym2, hsym2, hk2, hi2, hr2⟩ := bwf_lookup_sym hb hme
      rw [hsym] at hsym2
      obtain rfl : sym = sym2 := Option.some.inj hsym2.symm ▸ rfl
      have hpair := Option.some.inj hke
      have hkey : (e.from_state, sym.kind, sym.ident) = k := congrArg Prod.fst hpair
      have hres : sym.result = r := congrArg Prod.snd hpair
      refine ⟨e, hme, ?_, ?_⟩
      · exact congrArg Prod.fst hkey
      · have h21 : sym.kind = k.2.1 := by
          have := congrArg Prod.snd hkey
          exact congrArg Prod.fst this
        have h22 : sym.ident = k.2.2 := by
          have := congrArg Prod.snd hkey
          exact congrArg Prod.snd this
        cases hsid : e.symbol_id
        rename_i ek ei er
        have hk3 : ek = k.2.1 := by rw [← h21, hk2, hsid]
        have hi3 : ei = k.2.2 := by rw [← h22, hi2, hsid]
        have hr3 : er = r := by rw [← hres, hr2, hsid]
        rw [hk3, hi3, hr3]

theorem addEdge_isOk {b : Builder} {f t : String} (sym : InputSymbol)
    (eff : Option Effect) (hf : (alookup f b.states).isSome) :
    ∃ b', addEdge b f t sym eff = .ok b' := by
  rw [addEdge]
  have hn : ¬ (alookup f b.states).isNone := by
    rw [Option.isNone_iff_eq_none]
    intro hx
    rw [hx] at hf
    simp at hf
  rw [if_neg hn]
  by_cases ht : (alookup t b.states).isNone
  · rw [if_pos ht]
    exact ⟨_, rfl⟩
  · rw [if_neg ht]
    exact ⟨_, rfl⟩

theorem completeStep_spec {b : Builder} {k : PKey} {haveRs : List ResultType}
    (r : ResultType) (hf : (alookup k.1 b.states).isSome) :
    ∃ b', completeStep b k haveRs r = .ok b' ∧
      (BWF b → BWF b') ∧ (∀ e ∈ b.edges, e ∈ b'.edges) ∧
      (∀ s, (alookup s b.states).isSome → (alookup s b'.states).isSome) ∧
      b'.initial = b.initial ∧
      (r ∉ haveRs → ∃ e ∈ b'.edges, e.from_state = k.1 ∧
        e.symbol_id = ⟨k.2.1, k.2.2, r⟩) ∧
      (∀ e ∈ b'.edges, e ∈ b.edges ∨ keyOf e = k) := by
  by_cases hr : r ∈ haveRs
  · refine ⟨b, by rw [completeStep, if_pos hr], fun h => h, fun e he => he,
      fun s hs => hs, rfl, fun hcon => absurd hr hcon, fun e he => Or.inl he⟩
  · obtain ⟨b', hok⟩ := addEdge_isOk (InputSymbol.for_kind k.2.1 k.2.2 r) none hf
    obtain ⟨hinit, hsmono, _, _, _, _, _, hecase, hex⟩ := addEdge_ok_spec hok
    refine ⟨b', by rw [completeStep, if_neg hr]; exact hok,
      bwf_addEdge hok, ?_, hsmono, hinit, fun _ => hex, ?_⟩
    · intro e he
      rcases hecase with hc | ⟨hc, _⟩ <;> rw [hc]
      · exact he
      · exact List.mem_append_left _ he
    · intro e he
      rcases hecase with hc | ⟨hc, _⟩ <;> rw [hc] at he
      · exact Or.inl he
      · rcases List.mem_append.mp he with hh | hh
        · exact Or.inl hh
        · right
          rw [List.mem_singleton.mp hh]
          rfl

theorem completeKey_spec {b : Builder} {k : PKey} {haveRs : List ResultType}
    (hf : (alookup k.1 b.states).isSome) :
    ∃ b', completeKey b k haveRs = .ok b' ∧
      (BWF b → BWF b') ∧ (∀ e ∈ b.edges, e ∈ b'.edges) ∧
      (∀ s, (alookup s b.states).isSome → (alookup s b'.states).isSome) ∧
      b'.initial = b.initial ∧
      (∀ r : ResultType, r ∉ haveRs → ∃ e ∈ b'.edges, e.from_state = k.1 ∧
        e.symbol_id = ⟨k.2.1, k.2.2, r⟩) ∧
      (∀ e ∈ b'.edges, e ∈ b.edges ∨ keyOf e = k) := by
  obtain ⟨b1, hok1, hw1, hm1, hs1, hi1, hx1, ho1⟩ :=
    @completeStep_spec b k haveRs .success hf
  obtain ⟨b2, hok2, hw2, hm2, hs2, hi2, hx2, ho2⟩ :=
    @completeStep_spec b1 k haveRs .error (hs1 _ hf)
  refine ⟨b2, ?_, fun h => hw2 (hw1 h), fun e he => hm2 _ (hm1 _ he),
    fun s hs => hs2 _ (hs1 _ hs), hi2.trans hi1, ?_, ?_⟩
  · rw [completeKey, hok1]
    exact hok2
  · intro r hr
    cases r
    · obtain ⟨e, he, hp⟩ := hx1 hr
      exact ⟨e, hm2 _ he, hp⟩
    · exact hx2 hr
  · intro e he
    rcases ho2 e he with hh | hh
    · rcases ho1 e hh with hh2 | hh2
      · exact Or.inl hh2
      · exact Or.inr hh2
    · exact Or.inr hh

theorem completeFold_spec :
    ∀ (present : List (PKey × List ResultType)) (b : Builder),
    (∀ p ∈ present, (alookup p.1.1 b.states).isSome) →
    (∀ p ∈ present, ∀ r ∈ p.2, ∃ e ∈ b.edges, e.from_state = p.1.1 ∧
      e.symbol_id = ⟨p.1.2.1, p.1.2.2, r⟩) →
    ∃ b', present.foldlM (fun b p => completeKey b p.1 p.2) b = .ok b' ∧
      (BWF b → BWF b') ∧ (∀ e ∈ b.edges, e ∈ b'.edges) ∧
      (∀ s, (alookup s b.states).isSome → (alookup s b'.states).isSome) ∧
      b'.initial = b.initial ∧
      (∀ p ∈ present, ∀ r : ResultType, ∃ e ∈ b'.edges,
        e.from_state = p.1.1 ∧ e.symbol_id = ⟨p.1.2.1, p.1.2.2, r⟩) ∧
      (∀ e ∈ b'.edges, e ∈ b.edges ∨ ∃ p ∈ present, keyOf e = p.1) := by
  intro present
  induction present with
  | nil =>
    intro b _ _
    refine ⟨b, rfl, fun h => h, fun e he => he, fun s hs => hs, rfl, ?_, ?_⟩
    · intro p hp
      simp at hp
    · intro e he
      exact Or.inl he
  | cons p t ih =>
    intro b hlk hkp
    obtain ⟨b1, hok1, hw1, hm1, hs1, hi1, hx1, ho1⟩ :=
      @completeKey_spec b p.1 p.2
        (hlk p (List.mem_cons_self _ _))
    obtain ⟨b', hok2, hw2, hm2, hs2, hi2, hgood, horig⟩ :=
      ih b1
        (fun q hq => hs1 _ (hlk q (List.mem_cons_of_mem _ hq)))
        (fun q hq r hr => by
          obtain ⟨e, he, hp2⟩ := hkp q (List.mem_cons_of_mem _ hq) r hr
          exact ⟨e, hm1 _ he, hp2⟩)
    refine ⟨b', ?_, fun h => hw2 (hw1 h), fun e he => hm2 _ (hm1 _ he),
      fun s hs => hs2 _ (hs1 _ hs), hi2.trans hi1, ?_, ?_⟩
    · rw [List.foldlM_cons, hok1]
      exact hok2
    · intro q hq r
      rcases List.mem_cons.mp hq with hh | hh
      · by_cases hr : r ∈ q.2
        · obtain ⟨e, he, hp2⟩ := hkp q hq r hr
          exact ⟨e, hm2 _ (hm1 _ he), hp2⟩
        · obtain ⟨e, he, hp2⟩ := hx1 r (by rw [hh] at hr; exact hr)
          refine ⟨e, hm2 _ he, ?_⟩
          rw [hh]
          exact hp2
      · exact hgood q hh r
    · intro e he
      rcases horig e he with hh | ⟨q, hq, hkeq⟩
      · rcases ho1 e hh with hh2 | hh2
        · exact Or.inl hh2
        · exact Or.inr ⟨p, List.mem_cons_self _ _, hh2⟩
      · exact Or.inr ⟨q, List.mem_cons_of_mem _ hq, hkeq⟩

/-- Master specification of `_complete_reflexive_edges` for well-formed
builders: it succeeds, preserves well-formedness, the initial state and all
existing states/edges, and its output edge list is per-binding complete. -/
theorem completeReflexive_spec {b : Builder} (hb : BWF b) :
    ∃ b1, completeReflexiveEdges b = .ok b1 ∧ BWF b1 ∧
      b1.initial = b.initial ∧
      (∀ e ∈ b.edges, e ∈ b1.edges) ∧
      (∀ s, (alookup s b.states).isSome → (alookup s b1.states).isSome) ∧
      Complete b1.edges := by
  by_cases hemp : b.edges = []
  · refine ⟨b, by rw [completeReflexiveEdges, if_pos hemp], hb, rfl,
      fun e he => he, fun s hs => hs, ?_⟩
    intro e he
    rw [hemp] at he
    simp at he
  · have hlk : ∀ p ∈ buildPresent b.edges b.symbols,
        (alookup p.1.1 b.states).isSome := by
      intro p hp
      have hne : p.2 ≠ [] := bucketFold_ne_nil _ (by intro q hq; simp at hq) p hp
      obtain ⟨r, hr⟩ := List.exists_mem_of_ne_nil _ hne
      obtain ⟨e, he, hef, _⟩ := buildPresent_backward hb ⟨p.2, hp, hr⟩
      rw [← hef]
      exact (hb.1 e he).1
    have hkp : ∀ p ∈ buildPresent b.edges b.symbols, ∀ r ∈ p.2,
        ∃ e ∈ b.edges, e.from_state = p.1.1 ∧
          e.symbol_id = ⟨p.1.2.1, p.1.2.2, r⟩ := by
      intro p hp r hr
      exact buildPresent_backward hb ⟨p.2, hp, hr⟩
    obtain ⟨b1, hok, hw, hm, hs, hi, hgood, horig⟩ :=
      completeFold_spec (buildPresent b.edges b.symbols) b hlk hkp
    refine ⟨b1, ?_, hw hb, hi, hm, hs, ?_⟩
    · rw [completeReflexiveEdges, if_neg hemp]
      exact hok
    · intro e he r
      rcases horig e he with hh | ⟨q, hq, hkeq⟩
      · obtain ⟨rs, hmem, _⟩ := buildPresent_forward hb hh
        obtain ⟨e2, he2, hf2, hp2⟩ := hgood (keyOf e, rs) hmem r
        exact ⟨e2, he2, hf2, hp2⟩
      · obtain ⟨e2, he2, hf2, hp2⟩ := hgood q hq r
        rw [← hkeq] at hf2 hp2
        exact ⟨e2, he2, hf2, hp2⟩

/-! ## Shape of the validated edge and state collections -/

theorem pruneUnreachable_shape (s : List (String × State)) (e : List Edge)
    (r : List String) :
    ((pruneUnreachable s e r).2.2.1 = false ∧ (pruneUnreachable s e r).1 = s ∧
      (pruneUnreachable s e r).2.1 = e) ∨
    (pruneUnreachable s e r).2.2.1 = true := by
  rw [pruneUnreachable]
  split
  · exact Or.inl ⟨rfl, rfl, rfl⟩
  · split
    · exact Or.inl ⟨rfl, rfl, rfl⟩
    · exact Or.inr rfl

theorem pruneTerminalOnly_shape (s : List (String × State)) (e : List Edge)
    (sy : List (SymId × InputSymbol)) (av : Availability)
    (io : Option String) :
    (pruneTerminalOnly s e sy av io).1 = e ∨
    ∃ P : String → Bool,
      (pruneTerminalOnly s e sy av io).1 = e.filter (fun ed => P ed.from_state) := by
  rw [pruneTerminalOnly.eq_def]
  split
  · exact Or.inl rfl
  · split
    · exact Or.inl rfl
    · rename_i initial
      split
      · exact Or.inl rfl
      · exact Or.inr ⟨fun n => ¬ (terminalOnlyNames s e sy av initial).contains n, rfl⟩

/-- The builder's aliased edge list after `validate` is the input list or a
filter of it by a predicate on the source state alone. -/
theorem validate_builderEdges_shape (b : Builder) (regs : Registries) :
    (validate b regs).builderEdges = b.edges ∨
    ∃ P : String → Bool,
      (validate b regs).builderEdges = b.edges.filter (fun e => P e.from_state) := by
  rw [validate]
  split
  · exact Or.inl rfl
  · split
    · exact Or.inl rfl
    · rcases pruneUnreachable_shape b.states b.edges
          (structuralChecks b regs).2.2.1 with ⟨hfl, hst, hed⟩ | hfl
      · rw [hfl]
        rw [if_neg (by simp)]
        rw [postPrune, hst, hed]
        exact pruneTerminalOnly_shape _ _ _ _ _
      · rw [hfl]
        rw [if_pos rfl]
        exact Or.inl rfl

/-- Per-binding completeness survives any filter that looks only at the
source state: both outcome edges of a binding share their `from_state`. -/
theorem complete_filter {E : List Edge} (P : String → Bool) (h : Complete E) :
    Complete (E.filter (fun e => P e.from_state)) := by
  intro e he r
  rw [List.mem_filter] at he
  obtain ⟨e2, he2, hf, hs⟩ := h e he.1 r
  refine ⟨e2, ?_, hf, hs⟩
  rw [List.mem_filter]
  refine ⟨he2, ?_⟩
  rw [hf]
  exact he.2

/-- Machine-level well-formedness of Σ, inherited from the builder. -/
def MWF (m : SM) : Prop :=
  (∀ p ∈ m.symbols, InputSymbol.id p.2 = p.1) ∧
  (∀ e ∈ m.edges, (alookup e.symbol_id m.symbols).isSome)

/-- Decomposition of a successful `build()`: the completed builder `b1`
exists, is well-formed with a complete edge list, and the machine holds `b1`'s
symbols, the validator's pruned states dict, an edge list that is `b1`'s
(possibly filtered by source state only — the aliasing decides which), and an
initial state present in its states dict. -/
theorem build_ok_spec {b : Builder} {regs : Registries} {m : SM}
    (hb : BWF b) (h : build b regs = .ok m) :
    ∃ b1, completeReflexiveEdges b = .ok b1 ∧ BWF b1 ∧ Complete b1.edges ∧
      m.symbols = b1.symbols ∧
      m.states = (validate b1 regs).statesAfter ∧
      (m.edges = b1.edges ∨ ∃ P : String → Bool,
        m.edges = b1.edges.filter (fun e => P e.from_state)) ∧
      (alookup m.initial m.states).isSome := by
  obtain ⟨b1, hok, hw, _, _, _, hC⟩ := completeReflexive_spec hb
  rw [build, hok] at h
  have h2 : (if buildErrs b1 regs ≠ [] then
      (throw (.invalid (buildErrs b1 regs)) : Except BuildErr SM) else
      mkMachine b1 regs) = .ok m := h
  by_cases he : buildErrs b1 regs ≠ []
  · rw [if_pos he] at h2
    have h3 : (Except.error (BuildErr.invalid (buildErrs b1 regs)) :
        Except BuildErr SM) = .ok m := h2
    exact absurd h3 (by simp)
  · rw [if_neg he] at h2
    rw [mkMachine] at h2
    have hfin : ∀ q0 : String,
        ((if (alookup q0 (validate b1 regs).statesAfter).isNone then
          (throw (.valueError ("Unknown initial state: " ++ q0)) :
            Except BuildErr SM)
        else pure ⟨q0, (validate b1 regs).statesAfter, b1.symbols,
          (validate b1 regs).builderEdges⟩) = .ok m) →
        ∃ b1x, completeReflexiveEdges b = .ok b1x ∧ BWF b1x ∧
          Complete b1x.edges ∧ m.symbols = b1x.symbols ∧
          m.states = (validate b1x regs).statesAfter ∧
          (m.edges = b1x.edges ∨ ∃ P : String → Bool,
            m.edges = b1x.edges.filter (fun e => P e.from_state)) ∧
          (alookup m.initial m.states).isSome := by
      intro q0 h3
      by_cases hq : (alookup q0 (validate b1 regs).statesAfter).isNone
      · rw [if_pos hq] at h3
        have h4 : (Except.error
            (BuildErr.valueError ("Unknown initial state: " ++ q0)) :
            Except BuildErr SM) = .ok m := h3
        exact absurd h4 (by simp)
      · rw [if_neg hq] at h3
        have hm : m = ⟨q0, (validate b1 regs).statesAfter, b1.symbols,
            (validate b1 regs).builderEdges⟩ := (Except.ok.inj h3).symm
        subst hm
        refine ⟨b1, hok, hw, hC, rfl, rfl, ?_, ?_⟩
        · exact validate_builderEdges_shape b1 regs
        · cases hv : alookup q0 (validate b1 regs).statesAfter
          · rw [hv] at hq
            simp at hq
          · simp [hv]
    split at h2
    · split at h2
      · cases hfs : firstStateKey (validate b1 regs).statesAfter with
        | error e2 =>
          rw [hfs] at h2
          have h3 : (Except.error e2 : Except BuildErr SM) = .ok m := h2
          exact absurd h3 (by simp)
        | ok q0 =>
          rw [hfs] at h2
          exact hfin q0 h2
      · exact hfin _ h2
    · cases hfs : firstStateKey (validate b1 regs).statesAfter with
      | error e2 =>
        rw [hfs] at h2
        have h3 : (Except.error e2 : Except BuildErr SM) = .ok m := h2
        exact absurd h3 (by simp)
      | ok q0 =>
        rw [hfs] at h2
        exact hfin q0 h2

/-! ## `available_symbols` under the completeness invariant -/

/-- With well-formed Σ and a per-binding-complete edge list, every outcome
bucket collected by `available_symbols` holds both SUCCESS and ERROR. -/
theorem symbolBuckets_complete {m : SM} (hM : MWF m) (hC : Complete m.edges)
    (sname : String) (kind : Kind) :
    ∀ p ∈ symbolBuckets m sname kind,
      ResultType.success ∈ p.2 ∧ ResultType.error ∈ p.2 := by
  intro p hp
  have hne : p.2 ≠ [] := bucketFold_ne_nil _ (by intro q hq; simp at hq) p hp
  obtain ⟨r0, hr0⟩ := List.exists_mem_of_ne_nil _ hne
  have hin0 : InBuckets (symbolBuckets m sname kind) p.1 r0 := ⟨p.2, hp, hr0⟩
  rcases bucketFold_cases hin0 with hc | ⟨e, he, hke⟩
  · obtain ⟨rs, hmem, _⟩ := hc
    simp at hmem
  · rw [availableSymbolsKeyres] at hke
    by_cases hf : e.from_state ≠ sname
    · rw [if_pos hf] at hke
      simp at hke
    · rw [if_neg hf] at hke
      split at hke
      · simp at hke
      · rename_i sym hsym
        by_cases hk : sym.kind ≠ kind
        · rw [if_pos hk] at hke
          simp at hke
        · rw [if_neg hk] at hke
          have hpair := Option.some.inj hke
          have hident : sym.ident = p.1 := congrArg Prod.fst hpair
          have hid : InputSymbol.id sym = e.symbol_id := hM.1 _ (alookup_mem hsym)
          have hkind : e.symbol_id.kind = kind := by
            rw [← hid, InputSymbol.id]
            exact not_not.mp hk
          have hident2 : e.symbol_id.ident = p.1 := by
            rw [← hid, InputSymbol.id]
            exact hident
          have hfrom : e.from_state = sname := not_not.mp hf
          have main : ∀ r : ResultType, r ∈ p.2 := by
            intro r
            obtain ⟨e2, he2, hf2, hs2⟩ := hC e he r
            obtain ⟨sym2, hsym2⟩ := Option.isSome_iff_exists.mp (hM.2 e2 he2)
            have hid2 : InputSymbol.id sym2 = e2.symbol_id :=
              hM.1 _ (alookup_mem hsym2)
            have hkind2 : sym2.kind = kind := by
              have : e2.symbol_id.kind = kind := by
                rw [hs2]
                exact hkind
              rw [← hid2, InputSymbol.id] at this
              exact this
            have hident3 : sym2.ident = p.1 := by
              have : e2.symbol_id.ident = p.1 := by
                rw [hs2]
                exact hident2
              rw [← hid2, InputSymbol.id] at this
              exact this
            have hres2 : sym2.result = r := by
              have : e2.symbol_id.result = r := by
                rw [hs2]
              rw [← hid2, InputSymbol.id] at this
              exact this
            have hke2 : availableSymbolsKeyres m sname kind e2 = some (p.1, r) := by
              rw [availableSymbolsKeyres]
              rw [if_neg (by
                rw [hf2, hfrom]
                exact fun hcon => hcon rfl)]
              rw [hsym2]
              show (if sym2.kind ≠ kind then none
                else some (sym2.ident, sym2.result)) = some (p.1, r)
              rw [if_neg (by
                rw [hkind2]
                exact fun hcon => hcon rfl)]
              rw [hident3, hres2]
            have hin : InBuckets (symbolBuckets m sname kind) p.1 r :=
              bucketFold_mem [] he2 hke2
            obtain ⟨rs2, hmem2, hr2⟩ := hin
            have hnd : (akeys (symbolBuckets m sname kind)).Nodup :=
              bucketFold_keys_nodup _ (by simp [akeys])
            rw [bucket_eq_of_nodup hnd hmem2 hp] at hr2
            exact hr2
          exact ⟨main .success, main .error⟩

/-- `available_symbols` never raises on a machine with well-formed Σ and a
complete edge list: it returns the bucket keys and the (possibly
lazily-initialised) cursors. -/
theorem availableSymbols_ok {m : SM} (hM : MWF m) (hC : Complete m.edges)
    (kind : Kind) (amb : Option String) (cs : Cursors) :
    availableSymbols m kind amb cs =
      .ok ((symbolBuckets m (currentState m amb cs).1 kind).map (·.1),
        (currentState m amb cs).2) := by
  rw [availableSymbols]
  rw [if_pos]
  rw [List.all_eq_true]
  intro p hp
  rw [decide_eq_true_eq]
  exact symbolBuckets_complete hM hC _ kind p hp

deriving instance DecidableEq for Except

instance (b : Builder) : Decidable (BWF b) := by
  unfold BWF
  infer_instance

/-! ## Concrete declaration sets used by witnesses and counterexamples -/

/-- The spec's login scenario: `start --login/SUCCESS--> home` (terminal at
`home`) and `start --login/ERROR--> start`, declared through the API. -/
def loginBuilder : Builder :=
  ((do
    let b := addState Builder.empty "start" true
    let b ← addEdge b "start" "home"
      (InputSymbol.for_kind .tool "login" .success) none
    let b ← addTerminal b "home" (InputSymbol.for_kind .tool "login" .success)
    addEdge b "start" "start"
      (InputSymbol.for_kind .tool "login" .error) none :
    Except BuildErr Builder)).toOption.getD Builder.empty

def loginRegs : Registries := ⟨["login"], [], [], fun _ => false⟩

def emptySM : SM := ⟨"", [], [], []⟩

def loginMachine : SM := (build loginBuilder loginRegs).toOption.getD emptySM

/-! ## Claims -/

/-- C2: for every automaton returned by a successful `build()` (from a
well-formed builder state), every `(state, kind, identifier)` binding that
has at least one edge has both the SUCCESS and the ERROR edge from that
state (`Complete`), and consequently `available_symbols` never raises on
such an automaton, for any kind, ambient session and cursor state. -/
theorem c2_reflexive_completion_invariant {b : Builder} {regs : Registries}
    {m : SM} (hb : BWF b) (h : build b regs = .ok m) :
    Complete m.edges ∧
      ∀ (kind : Kind) (amb : Option String) (cs : Cursors),
        ∃ out, availableSymbols m kind amb cs = .ok out := by
  obtain ⟨b1, _, hw1, hC1, hsy, _, hshape, _⟩ := build_ok_spec hb h
  have hCm : Complete m.edges := by
    rcases hshape with hsh | ⟨P, hsh⟩ <;> rw [hsh]
    · exact hC1
    · exact complete_filter P hC1
  have hMW : MWF m := by
    refine ⟨?_, ?_⟩
    · rw [hsy]
      exact hw1.2.1
    · intro e he
      rw [hsy]
      apply hw1.2.2
      rcases hshape with hsh | ⟨P, hsh⟩
      · rw [← hsh]
        exact he
      · rw [hsh] at he
        exact (List.mem_filter.mp he).1
  exact ⟨hCm, fun kind amb cs =>
    ⟨_, availableSymbols_ok hMW hCm kind amb cs⟩⟩

/-- Witness for C2 at the concrete login declaration set. -/
theorem c2_witness :
    BWF loginBuilder ∧
      (Complete loginMachine.edges ∧
        ∀ (kind : Kind) (amb : Option String) (cs : Cursors),
          ∃ out, availableSymbols loginMachine kind amb cs = .ok out) :=
  ⟨by decide, @c2_reflexive_completion_invariant loginBuilder loginRegs
    loginMachine (by decide) (by decide)⟩

/-- A builder state reached by declaring state `A` (initial) and one edge
`A --tool x/SUCCESS--> A`. -/
def c6Builder : Builder :=
  (addEdge (addState Builder.empty "A" true) "A" "A"
    (InputSymbol.for_kind .tool "x" .success) none).toOption.getD Builder.empty

/-- C6: in every builder state reachable through the declaration API, at most
one edge exists per `(from_state, symbol_id)` pair (`Deterministic`); this is
preserved by every further successful `add_edge`, and an `add_edge` whose
`(from_state, symbol_id)` pair already has an edge (same or different target)
leaves the edge list — and so the earlier edge and its effect — unchanged. -/
theorem c6_determinism_invariant {b : Builder} (hr : Reach b) :
    Deterministic b.edges ∧
      ∀ (f t : String) (sym : InputSymbol) (eff : Option Effect) (b' : Builder),
        addEdge b f t sym eff = .ok b' →
        (Deterministic b'.edges ∧
          ((∃ e ∈ b.edges, e.from_state = f ∧ e.symbol_id = sym.id) →
            b'.edges = b.edges)) := by
  have hd := deterministic_of_reach hr
  refine ⟨hd, ?_⟩
  intro f t sym eff b' hok
  refine ⟨deterministic_addEdge hok hd, ?_⟩
  rintro ⟨e, he, hef, hes⟩
  rcases (addEdge_ok_spec hok).2.2.2.2.2.2.2.1 with hc | ⟨_, hnone⟩
  · exact hc
  · exact absurd ⟨hef, hes⟩ (hnone e he)

/-- Witness for C6 at a concrete API-reachable builder state. -/
theorem c6_witness :
    Deterministic c6Builder.edges ∧
      ∀ (f t : String) (sym : InputSymbol) (eff : Option Effect) (b' : Builder),
        addEdge c6Builder f t sym eff = .ok b' →
        (Deterministic b'.edges ∧
          ((∃ e ∈ c6Builder.edges, e.from_state = f ∧ e.symbol_id = sym.id) →
            b'.edges = c6Builder.edges)) :=
  c6_determinism_invariant
    (Reach.edge "A" "A" (InputSymbol.for_kind .tool "x" .success) none
      (Reach.state "A" true Reach.empty) (by decide))

/-- Declaration set exhibiting the unreachable-pruning aliasing bug:
`A` (initial) with `A --x/SUCCESS--> B` (terminal at `B`), plus an
unreachable state `C` with `C --y/SUCCESS--> A`. -/
def c1Builder : Builder :=
  ((do
    let b := addState Builder.empty "A" true
    let b ← addEdge b "A" "B" (InputSymbol.for_kind .tool "x" .success) none
    let b ← addTerminal b "B" (InputSymbol.for_kind .tool "x" .success)
    let b := addState b "C" false
    addEdge b "C" "A" (InputSymbol.for_kind .tool "y" .success) none :
    Except BuildErr Builder)).toOption.getD Builder.empty

def c1Regs : Registries := ⟨["x", "y"], [], [], fun _ => false⟩

def c1Machine : SM := (build c1Builder c1Regs).toOption.getD emptySM

/-- C1 (code bug): on this declaration set, `build()` succeeds, the
unreachable state `C` is indeed removed from the returned automaton's state
set, but the edges touching `C` — which
`_warn_and_prune_unreachable_states` claims to prune (it even emits the
"Pruned 2 edges" warning) — survive in the returned automaton's edge list,
because the method rebinds `self.edges` to a fresh list instead of updating
the list shared with the builder in place, and `build()` reads the builder's
list. -/
theorem c1_unreachable_edge_pruning_lost :
    build c1Builder c1Regs = .ok c1Machine ∧
      alookup "C" c1Machine.states = none ∧
      Edge.mk "C" "A" ⟨Kind.tool, "y", ResultType.success⟩ none ∈ c1Machine.edges ∧
      Edge.mk "C" "C" ⟨Kind.tool, "y", ResultType.error⟩ none ∈ c1Machine.edges ∧
      Issue.mk "warning" "Pruned 2 edges referencing removed states." ∈
        (validate ((completeReflexiveEdges c1Builder).toOption.getD
          Builder.empty) c1Regs).issues := by
  decide

/-- One declared state `A` with a terminal self-loop, but no explicit initial
state; every other validation aspect of this declaration set is fine (setting
`A` initial would make `build()` succeed). -/
def c3Builder : Builder :=
  ((do
    let b := addState Builder.empty "A" false
    let b ← addEdge b "A" "A" (InputSymbol.for_kind .tool "x" .success) none
    let b ← addTerminal b "A" (InputSymbol.for_kind .tool "x" .success)
    addEdge b "A" "A" (InputSymbol.for_kind .tool "x" .error) none :
    Except BuildErr Builder)).toOption.getD Builder.empty

def c3Regs : Registries := ⟨["x"], [], [], fun _ => false⟩

/-- C3 (counterexample): the claim predicts that with declared states and no
explicit initial state, `build()` succeeds with `q0` defaulted to the first
declared state; on this declaration set — whose only issue is the missing
explicit initial state (the same set with `A` initial builds fine) —
`build()` instead fails with the "No initial state defined." aggregate
error.  The `q0` defaulting expression in `build()` is dead code because the
validator errors first. -/
theorem c3_no_initial_counterexample :
    c3Builder.states ≠ [] ∧ c3Builder.initial = none ∧
      build c3Builder c3Regs =
        .error (.invalid ["No initial state defined."]) ∧
      build (addState c3Builder "A" true) c3Regs ≠
        .error (.invalid ["No initial state defined."]) := by
  decide

/-- C3 (amended): for every well-formed declaration set with no explicit
initial state, `build()` fails with the aggregate error
"No initial state defined." — the first-declared-state default never runs. -/
theorem c3_no_initial_amended {b : Builder} {regs : Registries}
    (hb : BWF b) (hinit : b.initial = none) :
    build b regs = .error (.invalid ["No initial state defined."]) := by
  obtain ⟨b1, hok, _, hi, _, _, _⟩ := completeReflexive_spec hb
  have hsc : structuralChecks b1 regs = noInitialResult := by
    rw [structuralChecks, hi, hinit]
  have hval : validate b1 regs = ⟨noInitialResult.1, b1.states, b1.edges⟩ := by
    rw [validate, hsc]
    rw [if_pos (by decide)]
  have herrs : buildErrs b1 regs = ["No initial state defined."] := by
    rw [buildErrs, hval]
    have hclosed : ((noInitialResult.1.filter
        (fun i => decide (i.level = "error"))).map (·.message)) =
        ["No initial state defined."] := by decide
    exact hclosed
  rw [build, hok]
  show (if buildErrs b1 regs ≠ [] then
      (throw (.invalid (buildErrs b1 regs)) : Except BuildErr SM) else
      mkMachine b1 regs) = _
  rw [herrs]
  rw [if_pos (by decide)]
  rfl

/-- Witness for the amended C3 at the concrete declaration set. -/
theorem c3_witness :
    BWF c3Builder ∧ c3Builder.initial = none ∧
      build c3Builder c3Regs =
        .error (.invalid ["No initial state defined."]) :=
  ⟨by decide, by decide,
    @c3_no_initial_amended c3Builder c3Regs (by decide) (by decide)⟩

/-! ## Runtime well-formedness and cursor lemmas -/

/-- Runtime-facing well-formedness of a machine: `q0` names a state, and
every edge usable from a known state targets a known state. -/
def SMWF (m : SM) : Prop :=
  (alookup m.initial m.states).isSome ∧
  ∀ e ∈ m.edges, (alookup e.from_state m.states).isSome →
    (alookup e.to_state m.states).isSome

/-- The global cursor and every per-session cursor name a state of the
machine. -/
def ValidCursors (m : SM) (cs : Cursors) : Prop :=
  (alookup cs.currentGlobal m.states).isSome ∧
  ∀ p ∈ cs.bySession, (alookup p.2 m.states).isSome

instance (m : SM) : Decidable (SMWF m) := by
  unfold SMWF
  infer_instance

instance (m : SM) (cs : Cursors) : Decidable (ValidCursors m cs) := by
  unfold ValidCursors
  infer_instance

theorem alookup_aupdate_self {α β : Type} [DecidableEq α]
    {l : List (α × β)} {k : α} (v : β) (h : (alookup k l).isSome) :
    alookup k (aupdate l k v) = some v := by
  induction l with
  | nil => simp [alookup] at h
  | cons p t ih =>
    rw [aupdate, List.map_cons]
    rw [alookup] at h
    by_cases hp : p.1 = k
    · rw [if_pos hp, alookup, if_pos rfl]
    · rw [if_neg hp, alookup, if_neg hp]
      rw [if_neg hp] at h
      exact ih h

theorem alookup_append_singleton_eq {α β : Type} [DecidableEq α]
    {l : List (α × β)} {k : α} (v : β) (h : alookup k l = none) :
    alookup k (l ++ [(k, v)]) = some v := by
  induction l with
  | nil => simp [alookup]
  | cons p t ih =>
    rw [alookup] at h
    rw [List.cons_append, alookup]
    split at h
    · simp at h
    · rename_i hp
      rw [if_neg hp]
      exact ih h

/-- `current_state` reads a valid state name and preserves cursor
validity (the lazy init writes `q0`, which is a valid name). -/
theorem currentState_spec {m : SM} (hw : SMWF m) {cs : Cursors}
    (hv : ValidCursors m cs) (amb : Option String) :
    (alookup (currentState m amb cs).1 m.states).isSome ∧
      ValidCursors m (currentState m amb cs).2 := by
  cases amb with
  | none => exact ⟨hv.1, hv⟩
  | some sid =>
    rw [currentState]
    cases hl : alookup sid cs.bySession with
    | some v => exact ⟨hv.2 _ (alookup_mem hl), hv⟩
    | none =>
      refine ⟨hw.1, hv.1, ?_⟩
      intro p hp
      rcases List.mem_append.mp hp with hh | hh
      · exact hv.2 _ hh
      · rw [List.mem_singleton.mp hh]
        exact hw.1

/-- When the session cursor already exists (or no session is ambient),
`current_state` leaves the cursor map unchanged. -/
theorem currentState_snd_of_isSome {m : SM} {cs : Cursors} :
    ∀ amb : Option String,
      (∀ sid, amb = some sid → (alookup sid cs.bySession).isSome) →
      (currentState m amb cs).2 = cs := by
  intro amb h
  cases amb with
  | none => rfl
  | some sid =>
    rw [currentState]
    cases hl : alookup sid cs.bySession with
    | some v => rfl
    | none =>
      have := h sid rfl
      rw [hl] at this
      simp at this

theorem setSession_valid {m : SM} {cs : Cursors} (hv : ValidCursors m cs)
    {v : String} (hval : (alookup v m.states).isSome) (sid : String) :
    ValidCursors m (setSession cs sid v) := by
  rw [setSession]
  split
  · refine ⟨hv.1, ?_⟩
    intro p hp
    rw [aupdate] at hp
    obtain ⟨q, hq, hpq⟩ := List.mem_map.mp hp
    by_cases hqk : q.1 = sid
    · rw [if_pos hqk] at hpq
      rw [← hpq]
      exact hval
    · rw [if_neg hqk] at hpq
      rw [← hpq]
      exact hv.2 _ hq
  · refine ⟨hv.1, ?_⟩
    intro p hp
    rcases List.mem_append.mp hp with hh | hh
    · exact hv.2 _ hh
    · rw [List.mem_singleton.mp hh]
      exact hval

/-- The value just written for a session is what `current_state` reads. -/
theorem currentState_setSession_self {m : SM} (cs : Cursors) (sid v : String) :
    currentState m (some sid) (setSession cs sid v) =
      (v, setSession cs sid v) := by
  have hself : alookup sid (setSession cs sid v).bySession = some v := by
    rw [setSession]
    by_cases hl : (alookup sid cs.bySession).isSome
    · rw [if_pos hl]
      exact alookup_aupdate_self v hl
    · rw [if_neg hl]
      have hnone : alookup sid cs.bySession = none := by
        cases hx : alookup sid cs.bySession
        · rfl
        · rw [hx] at hl
          simp at hl
      exact alookup_append_singleton_eq v hnone
  rw [currentState, hself]

theorem resetCur_valid {m : SM} (hw : SMWF m) {cs : Cursors}
    (hv : ValidCursors m cs) (amb : Option String) :
    ValidCursors m (resetCur m amb cs) := by
  cases amb with
  | none => exact ⟨hw.1, hv.2⟩
  | some sid => exact setSession_valid hv hw.1 sid

/-- `resetCur` leaves the ambient cursor at `q0`. -/
theorem currentState_resetCur {m : SM} (cs : Cursors) (amb : Option String) :
    (currentState m amb (resetCur m amb cs)).1 = m.initial := by
  cases amb with
  | none => rfl
  | some sid =>
    rw [resetCur]
    rw [currentState_setSession_self]

/-- `set_current_state` rejects exactly the unknown names; on success the
written name is read back and validity is preserved. -/
theorem setCurrentState_spec (m : SM) (amb : Option String) (cs : Cursors)
    (name : String) :
    ((alookup name m.states).isSome →
      ∃ cs', setCurrentState m amb cs name = .ok cs' ∧
        currentState m amb cs' = (name, cs') ∧
        (ValidCursors m cs → ValidCursors m cs')) ∧
    ((alookup name m.states).isSome = false →
      setCurrentState m amb cs name =
        .error (.valueError ("Unknown state: " ++ name))) := by
  constructor
  · intro hn
    rw [setCurrentState.eq_def]
    rw [if_neg (by
      cases hx : alookup name m.states
      · rw [hx] at hn
        simp at hn
      · simp)]
    cases amb with
    | none => exact ⟨_, rfl, rfl, fun hv => ⟨hn, hv.2⟩⟩
    | some sid =>
      exact ⟨_, rfl, currentState_setSession_self cs sid name,
        fun hv => setSession_valid hv hn sid⟩
  · intro hn
    rw [setCurrentState.eq_def]
    rw [if_pos (by
      cases hx : alookup name m.states
      · rfl
      · rw [hx] at hn
        simp at hn)]

/-- Reading the current state twice is idempotent: the lazy init of the first
read makes the second a pure lookup. -/
theorem currentState_currentState (m : SM) (amb : Option String) (cs : Cursors) :
    currentState m amb (currentState m amb cs).2 =
      ((currentState m amb cs).1, (currentState m amb cs).2) := by
  cases amb with
  | none => rfl
  | some sid =>
    cases hl : alookup sid cs.bySession with
    | some v =>
      simp only [currentState, hl]
    | none =>
      have hap : alookup sid (cs.bySession ++ [(sid, m.initial)]) =
          some m.initial := alookup_append_singleton_eq m.initial hl
      simp only [currentState, hl, hap]

theorem currentState_resetCur_snd (m : SM) (amb : Option String) (cs : Cursors) :
    (currentState m amb (resetCur m amb cs)).2 = resetCur m amb cs := by
  cases amb with
  | none => rfl
  | some sid =>
    rw [resetCur]
    rw [currentState_setSession_self]

/-- `apply_callback_with_context` never lets a failure escape: for every
callback and every behaviour — return (of `None` or a value), raise, or
cancellation — it returns normally, with the logged outcome. -/
theorem applyCallback_never_raises (eff : Option Effect) (beh : Effect → EffBeh) :
    ∃ r, applyCallbackWithContext eff beh = .ok r := by
  cases eff with
  | none => exact ⟨.skipped, rfl⟩
  | some f =>
    cases hbeh : beh f with
    | returns v =>
      cases v with
      | none =>
        exact ⟨.ran, by rw [applyCallbackWithContext, runCallbackBody, hbeh]⟩
      | some x =>
        exact ⟨.loggedResult x,
          by rw [applyCallbackWithContext, runCallbackBody, hbeh]⟩
    | raises =>
      exact ⟨.loggedExc, by rw [applyCallbackWithContext, runCallbackBody, hbeh]⟩
    | cancels =>
      exact ⟨.loggedCancel,
        by rw [applyCallbackWithContext, runCallbackBody, hbeh]⟩

/-- `_apply` with a missing edge is a pure no-op on the cursors beyond the
lazy initialisation performed by the reads. -/
theorem scopeApply_noEdge {m : SM} {amb : Option String} {cs : Cursors}
    {sid : SymId} (he : (getEdge m amb cs sid).1 = none)
    (beh : Effect → EffBeh) :
    scopeApply m amb cs sid beh = .ok (currentState m amb cs).2 := by
  rw [scopeApply.eq_def, he]
  show Except.ok (currentState m amb (getEdge m amb cs sid).2).2 = _
  have hg : (getEdge m amb cs sid).2 = (currentState m amb cs).2 := rfl
  rw [hg, currentState_currentState]

/-- `_apply` with an edge present: the cursor is written to the edge's target
(and reads it back), validity is preserved, and the target names a state. -/
theorem scopeApply_edge {m : SM} (hw : SMWF m) {amb : Option String}
    {cs : Cursors} (hv : ValidCursors m cs) {sid : SymId} {e : Edge}
    (he : (getEdge m amb cs sid).1 = some e) (beh : Effect → EffBeh) :
    ∃ cs2, scopeApply m amb cs sid beh = .ok cs2 ∧
      currentState m amb cs2 = (e.to_state, cs2) ∧
      ValidCursors m cs2 ∧
      (alookup e.to_state m.states).isSome := by
  have he2 : List.find? (fun e2 =>
      decide (e2.from_state = (currentState m amb cs).1 ∧
        e2.symbol_id = sid)) m.edges = some e := he
  have hmem : e ∈ m.edges := List.mem_of_find?_eq_some he2
  have hfrom : e.from_state = (currentState m amb cs).1 := by
    have hp := List.find?_some he2
    rw [decide_eq_true_eq] at hp
    exact hp.1
  have hcs1 := currentState_spec hw hv amb
  have hto : (alookup e.to_state m.states).isSome := by
    apply hw.2 e hmem
    rw [hfrom]
    exact hcs1.1
  obtain ⟨cs2, hok, hread, hvalid⟩ :=
    (setCurrentState_spec m amb (currentState m amb cs).2 e.to_state).1 hto
  obtain ⟨r, hr⟩ := applyCallback_never_raises e.effect beh
  refine ⟨cs2, ?_, hread, hvalid hcs1.2, hto⟩
  rw [scopeApply.eq_def, he]
  show (do
    let cs2 ← setCurrentState m amb (getEdge m amb cs sid).2 e.to_state
    match applyCallbackWithContext e.effect beh with
    | .ok _ => pure cs2
    | .error .exc => pure cs2
    | .error .cancelled =>
        Except.error (.valueError "CancelledError")) = .ok cs2
  have hg : (getEdge m amb cs sid).2 = (currentState m amb cs).2 := rfl
  rw [hg, hok]
  show (match applyCallbackWithContext e.effect beh with
    | .ok _ => pure cs2
    | .error .exc => pure cs2
    | .error .cancelled =>
        (Except.error (.valueError "CancelledError") : Except BuildErr Cursors)) =
    .ok cs2
  rw [hr]
  rfl

/-- The scope's observable outcome for each exit kind: `completed` models
`return False` (nothing raised, nothing suppressed), `raised ex` models
re-raising `exc_mapper(ex)` (the default mapper wraps the original failure in
a `ValueError`). -/
def scopeOutOf : Option Exc → ScopeOut
  | none => .completed
  | some ex => .raised ex

/-- Full behaviour of `__aexit__` when an edge for the selected symbol
exists: the scope returns normally with the path's outcome, the ambient
cursor ends at the edge's target — except at `q0` when the selected symbol-id
is terminal in the target state — and cursor validity is preserved. -/
theorem scopeExit_edge_spec {m : SM} (hw : SMWF m) {amb : Option String}
    {cs : Cursors} (hv : ValidCursors m cs) {kind : Kind} {ident : String}
    {exc : Option Exc} {e : Edge}
    (he : (getEdge m amb cs (scopeSid kind ident exc)).1 = some e)
    (beh : Effect → EffBeh) :
    ∃ st, alookup e.to_state m.states = some st ∧
    ∃ cs', scopeExit m amb cs kind ident exc beh = .ok (cs', scopeOutOf exc) ∧
      (currentState m amb cs').1 =
        (if scopeSid kind ident exc ∈ st.terminals then m.initial
         else e.to_state) ∧
      ValidCursors m cs' := by
  obtain ⟨cs2, hap, hcur2, hv2, hto⟩ := scopeApply_edge hw hv he beh
  obtain ⟨st, hst⟩ := Option.isSome_iff_exists.mp hto
  have hcur21 : (currentState m amb cs2).1 = e.to_state :=
    congrArg Prod.fst hcur2
  have hcur22 : (currentState m amb cs2).2 = cs2 := congrArg Prod.snd hcur2
  have hterm : isTerminal m amb cs2 (scopeSid kind ident exc) =
      .ok (decide (scopeSid kind ident exc ∈ st.terminals), cs2) := by
    rw [isTerminal.eq_def, hcur21, hst, hcur22]
  refine ⟨st, hst, ?_⟩
  by_cases ht : scopeSid kind ident exc ∈ st.terminals
  · refine ⟨resetCur m amb cs2, ?_, ?_, resetCur_valid hw hv2 amb⟩
    · rw [scopeExit, hap]
      show (do
        let t ← isTerminal m amb cs2 (scopeSid kind ident exc)
        scopeFinish m amb (if t.1 then resetCur m amb t.2 else t.2) exc) =
        .ok (resetCur m amb cs2, scopeOutOf exc)
      rw [hterm]
      show scopeFinish m amb
        (if decide (scopeSid kind ident exc ∈ st.terminals) then
          resetCur m amb cs2 else cs2) exc = _
      rw [if_pos (decide_eq_true ht)]
      cases exc with
      | none => rfl
      | some ex =>
        rw [scopeFinish, currentState_resetCur_snd]
        rfl
    · rw [if_pos ht]
      exact currentState_resetCur cs2 amb
  · refine ⟨cs2, ?_, ?_, hv2⟩
    · rw [scopeExit, hap]
      show (do
        let t ← isTerminal m amb cs2 (scopeSid kind ident exc)
        scopeFinish m amb (if t.1 then resetCur m amb t.2 else t.2) exc) =
        .ok (cs2, scopeOutOf exc)
      rw [hterm]
      show scopeFinish m amb
        (if decide (scopeSid kind ident exc ∈ st.terminals) then
          resetCur m amb cs2 else cs2) exc = _
      rw [if_neg (by
        rw [decide_eq_true_eq]
        exact ht)]
      cases exc with
      | none => rfl
      | some ex =>
        rw [scopeFinish, hcur22]
        rfl
    · rw [if_neg ht]
      exact hcur21

/-- Full behaviour of `__aexit__` when no edge exists for the selected
symbol: the scope still returns normally with the path's outcome, and the
ambient cursor is unchanged — except that it resets to `q0` when the selected
symbol-id is terminal in the (unchanged) current state. -/
theorem scopeExit_noEdge_spec {m : SM} (hw : SMWF m) {amb : Option String}
    {cs : Cursors} (hv : ValidCursors m cs) {kind : Kind} {ident : String}
    {exc : Option Exc}
    (he : (getEdge m amb cs (scopeSid kind ident exc)).1 = none)
    (beh : Effect → EffBeh) :
    ∃ st, alookup (currentState m amb cs).1 m.states = some st ∧
    ∃ cs', scopeExit m amb cs kind ident exc beh = .ok (cs', scopeOutOf exc) ∧
      (currentState m amb cs').1 =
        (if scopeSid kind ident exc ∈ st.terminals then m.initial
         else (currentState m amb cs).1) ∧
      ValidCursors m cs' := by
  have hap := scopeApply_noEdge he beh
  have hcs1 := currentState_spec hw hv amb
  obtain ⟨st, hst⟩ := Option.isSome_iff_exists.mp hcs1.1
  have hcc := currentState_currentState m amb cs
  have hcc1 : (currentState m amb (currentState m amb cs).2).1 =
      (currentState m amb cs).1 := congrArg Prod.fst hcc
  have hcc2 : (currentState m amb (currentState m amb cs).2).2 =
      (currentState m amb cs).2 := congrArg Prod.snd hcc
  have hterm : isTerminal m amb (currentState m amb cs).2
      (scopeSid kind ident exc) =
      .ok (decide (scopeSid kind ident exc ∈ st.terminals),
        (currentState m amb cs).2) := by
    rw [isTerminal.eq_def, hcc1, hst, hcc2]
  refine ⟨st, hst, ?_⟩
  by_cases ht : scopeSid kind ident exc ∈ st.terminals
  · refine ⟨resetCur m amb (currentState m amb cs).2, ?_, ?_,
      resetCur_valid hw hcs1.2 amb⟩
    · rw [scopeExit, hap]
      show (do
        let t ← isTerminal m amb (currentState m amb cs).2
          (scopeSid kind ident exc)
        scopeFinish m amb (if t.1 then resetCur m amb t.2 else t.2) exc) =
        .ok (resetCur m amb (currentState m amb cs).2, scopeOutOf exc)
      rw [hterm]
      show scopeFinish m amb
        (if decide (scopeSid kind ident exc ∈ st.terminals) then
          resetCur m amb (currentState m amb cs).2
        else (currentState m amb cs).2) exc = _
      rw [if_pos (decide_eq_true ht)]
      cases exc with
      | none => rfl
      | some ex =>
        rw [scopeFinish, currentState_resetCur_snd]
        rfl
    · rw [if_pos ht]
      exact currentState_resetCur _ amb
  · refine ⟨(currentState m amb cs).2, ?_, ?_, hcs1.2⟩
    · rw [scopeExit, hap]
      show (do
        let t ← isTerminal m amb (currentState m amb cs).2
          (scopeSid kind ident exc)
        scopeFinish m amb (if t.1 then resetCur m amb t.2 else t.2) exc) =
        .ok ((currentState m amb cs).2, scopeOutOf exc)
      rw [hterm]
      show scopeFinish m amb
        (if decide (scopeSid kind ident exc ∈ st.terminals) then
          resetCur m amb (currentState m amb cs).2
        else (currentState m amb cs).2) exc = _
      rw [if_neg (by
        rw [decide_eq_true_eq]
        exact ht)]
      cases exc with
      | none => rfl
      | some ex =>
        rw [scopeFinish, hcc2]
        rfl
    · rw [if_neg ht]
      exact hcc1

/-- C9: effect execution is best-effort and non-semantic.
`apply_callback_with_context` returns normally for every behaviour: a raised
`Exception` and a cancellation are caught and logged (`loggedExc`,
`loggedCancel`), a non-`None` result is logged and discarded
(`loggedResult`); and the whole transition scope's outcome (cursor updates,
terminal reset, completion or re-raise) is identical to what it would be had
every effect returned `None` normally. -/
theorem c9_effect_failures_never_propagate :
    (∀ (eff : Option Effect) (beh : Effect → EffBeh),
      ∃ r, applyCallbackWithContext eff beh = .ok r) ∧
    (∀ (f : Effect) (beh : Effect → EffBeh),
      applyCallbackWithContext (some f) beh =
        .ok (match beh f with
          | .returns none => CbOutcome.ran
          | .returns (some v) => CbOutcome.loggedResult v
          | .raises => CbOutcome.loggedExc
          | .cancels => CbOutcome.loggedCancel)) ∧
    (∀ (m : SM) (amb : Option String) (cs : Cursors) (kind : Kind)
        (ident : String) (exc : Option Exc) (beh : Effect → EffBeh),
      scopeExit m amb cs kind ident exc beh =
        scopeExit m amb cs kind ident exc (fun _ => .returns none)) := by
  refine ⟨applyCallback_never_raises, ?_, ?_⟩
  · intro f beh
    cases hbeh : beh f with
    | returns v =>
      cases v with
      | none => rw [applyCallbackWithContext, runCallbackBody, hbeh]
      | some x => rw [applyCallbackWithContext, runCallbackBody, hbeh]
    | raises => rw [applyCallbackWithContext, runCallbackBody, hbeh]
    | cancels => rw [applyCallbackWithContext, runCallbackBody, hbeh]
  · intro m amb cs kind ident exc beh
    have hsa : scopeApply m amb cs (scopeSid kind ident exc) beh =
        scopeApply m amb cs (scopeSid kind ident exc)
          (fun _ => .returns none) := by
      rw [scopeApply.eq_def, scopeApply.eq_def]
      cases hge : (getEdge m amb cs (scopeSid kind ident exc)).1 with
      | none => rfl
      | some e =>
        show (do
          let cs2 ← setCurrentState m amb
            (getEdge m amb cs (scopeSid kind ident exc)).2 e.to_state
          match applyCallbackWithContext e.effect beh with
          | .ok _ => pure cs2
          | .error .exc => pure cs2
          | .error .cancelled =>
              Except.error (.valueError "CancelledError")) =
          (do
          let cs2 ← setCurrentState m amb
            (getEdge m amb cs (scopeSid kind ident exc)).2 e.to_state
          match applyCallbackWithContext e.effect (fun _ => .returns none) with
          | .ok _ => pure cs2
          | .error .exc => pure cs2
          | .error .cancelled =>
              Except.error (.valueError "CancelledError"))
        cases hset : setCurrentState m amb
            (getEdge m amb cs (scopeSid kind ident exc)).2 e.to_state with
        | error err => rfl
        | ok cs2 =>
          obtain ⟨r1, h1⟩ := applyCallback_never_raises e.effect beh
          obtain ⟨r2, h2⟩ := applyCallback_never_raises e.effect
            (fun _ => .returns none)
          show (match applyCallbackWithContext e.effect beh with
            | .ok _ => pure cs2
            | .error .exc => pure cs2
            | .error .cancelled =>
                (Except.error (.valueError "CancelledError") :
                  Except BuildErr Cursors)) =
            (match applyCallbackWithContext e.effect (fun _ => .returns none) with
            | .ok _ => pure cs2
            | .error .exc => pure cs2
            | .error .cancelled =>
                Except.error (.valueError "CancelledError"))
          rw [h1, h2]
    rw [scopeExit, scopeExit, hsa]

/-- C4: on a normal scope exit whose current state has an edge for the
binding's SUCCESS symbol, the ambient session's current state after the exit
equals the edge's target state — except that it equals `q0` when that SUCCESS
symbol-id is in the target state's terminal set — and the scope completes
without raising. -/
theorem c4_success_transition {m : SM} (hw : SMWF m) {amb : Option String}
    {cs : Cursors} (hv : ValidCursors m cs) {kind : Kind} {ident : String}
    {e : Edge}
    (he : (getEdge m amb cs (InputSymbol.for_kind kind ident .success).id).1 =
      some e) (beh : Effect → EffBeh) :
    ∃ st, alookup e.to_state m.states = some st ∧
    ∃ cs', scopeExit m amb cs kind ident none beh = .ok (cs', .completed) ∧
      (currentState m amb cs').1 =
        (if (InputSymbol.for_kind kind ident .success).id ∈ st.terminals
         then m.initial else e.to_state) := by
  have he2 : (getEdge m amb cs (scopeSid kind ident none)).1 = some e := he
  obtain ⟨st, hst, cs', hex, hcur, _⟩ := scopeExit_edge_spec hw hv he2 beh
  exact ⟨st, hst, cs', hex, hcur⟩

/-- Witness for C4: the login scenario under session `s1`; the SUCCESS edge
targets `home`, which is terminal for the SUCCESS symbol, so the cursor ends
back at `q0 = start`. -/
theorem c4_witness :
    SMWF loginMachine ∧ ValidCursors loginMachine loginMachine.initCursors ∧
      (getEdge loginMachine (some "s1") loginMachine.initCursors
        (InputSymbol.for_kind .tool "login" .success).id).1 =
        some (Edge.mk "start" "home" ⟨.tool, "login", .success⟩ none) ∧
      (∃ st, alookup "home" loginMachine.states = some st ∧
       ∃ cs', scopeExit loginMachine (some "s1") loginMachine.initCursors
           .tool "login" none (fun _ => .returns none) = .ok (cs', .completed) ∧
         (currentState loginMachine (some "s1") cs').1 =
           (if (InputSymbol.for_kind .tool "login" .success).id ∈ st.terminals
            then loginMachine.initial else "home")) :=
  ⟨by decide, by decide, by decide,
    @c4_success_transition loginMachine (by decide) (some "s1")
      loginMachine.initCursors (by decide) .tool "login"
      (Edge.mk "start" "home" ⟨.tool, "login", .success⟩ none) (by decide)
      (fun _ => .returns none)⟩

/-- C5: on an abnormal exit whose current state has an edge for the ERROR
symbol, the scope first applies that edge (state update and possible terminal
reset) and then re-raises the original failure through the exception mapper
(`.raised ex` models `raise exc_mapper(ex) from ex`); on a normal exit the
scope completes, suppressing nothing and raising nothing. -/
theorem c5_error_reraise_normal_no_suppress {m : SM} (hw : SMWF m)
    {amb : Option String} {cs : Cursors} (hv : ValidCursors m cs)
    (kind : Kind) (ident : String) (beh : Effect → EffBeh) :
    (∀ (ex : Exc) (e : Edge),
      (getEdge m amb cs (InputSymbol.for_kind kind ident .error).id).1 =
        some e →
      ∃ st, alookup e.to_state m.states = some st ∧
      ∃ cs', scopeExit m amb cs kind ident (some ex) beh =
          .ok (cs', .raised ex) ∧
        (currentState m amb cs').1 =
          (if (InputSymbol.for_kind kind ident .error).id ∈ st.terminals
           then m.initial else e.to_state)) ∧
    (∃ cs', scopeExit m amb cs kind ident none beh = .ok (cs', .completed)) := by
  constructor
  · intro ex e he
    have he2 : (getEdge m amb cs (scopeSid kind ident (some ex))).1 = some e := he
    obtain ⟨st, hst, cs', hex, hcur, _⟩ := scopeExit_edge_spec hw hv he2 beh
    exact ⟨st, hst, cs', hex, hcur⟩
  · cases hge : (getEdge m amb cs (scopeSid kind ident none)).1 with
    | some e =>
      obtain ⟨_, _, cs', hex, _, _⟩ := scopeExit_edge_spec hw hv hge beh
      exact ⟨cs', hex⟩
    | none =>
      obtain ⟨_, _, cs', hex, _, _⟩ := scopeExit_noEdge_spec hw hv hge beh
      exact ⟨cs', hex⟩

/-- Witness for C5: the login scenario at the global cursor.  The ERROR edge
is the `start → start` self-loop, and the normal path completes. -/
theorem c5_witness :
    SMWF loginMachine ∧ ValidCursors loginMachine loginMachine.initCursors ∧
      ((∀ (ex : Exc) (e : Edge),
        (getEdge loginMachine none loginMachine.initCursors
          (InputSymbol.for_kind .tool "login" .error).id).1 = some e →
        ∃ st, alookup e.to_state loginMachine.states = some st ∧
        ∃ cs', scopeExit loginMachine none loginMachine.initCursors .tool
            "login" (some ex) (fun _ => .returns none) = .ok (cs', .raised ex) ∧
          (currentState loginMachine none cs').1 =
            (if (InputSymbol.for_kind .tool "login" .error).id ∈ st.terminals
             then loginMachine.initial else e.to_state)) ∧
      (∃ cs', scopeExit loginMachine none loginMachine.initCursors .tool
          "login" none (fun _ => .returns none) = .ok (cs', .completed))) :=
  ⟨by decide, by decide,
    @c5_error_reraise_normal_no_suppress loginMachine (by decide) none
      loginMachine.initCursors (by decide) .tool "login"
      (fun _ => .returns none)⟩

/-- C8 (counterexample): in the automaton built from the C1 declaration set,
move the (global) cursor legally to `B` via `set_current_state`.  `B` has no
edge for the `x`/SUCCESS symbol, yet the symbol is terminal at `B`, so a
normal scope exit performs the no-op transition *and then still runs the
terminal check*, resetting the cursor to `q0 = A`: the current state is not
unchanged, refuting the claim as stated (the exit itself stays error-free). -/
theorem c8_missing_edge_counterexample :
    setCurrentState c1Machine none c1Machine.initCursors "B" =
      .ok ⟨"B", []⟩ ∧
    (getEdge c1Machine none ⟨"B", []⟩
      (InputSymbol.for_kind .tool "x" .success).id).1 = none ∧
    scopeExit c1Machine none ⟨"B", []⟩ .tool "x" none
      (fun _ => .returns none) = .ok (⟨"A", []⟩, .completed) ∧
    (currentState c1Machine none (⟨"A", []⟩ : Cursors)).1 ≠
      (currentState c1Machine none (⟨"B", []⟩ : Cursors)).1 := by
  decide

/-- C8 (amended): on a scope exit in a current state with no edge for the
selected symbol-id, the transition itself is a no-op and no consistency error
propagates to the caller (the scope returns normally on the success path and
re-raises only the mapped original failure on the error path); the current
state is unchanged *unless* the selected symbol-id is terminal in the current
state, in which case the terminal check still fires and resets the cursor to
`q0`. -/
theorem c8_missing_edge_noop_amended {m : SM} (hw : SMWF m)
    {amb : Option String} {cs : Cursors} (hv : ValidCursors m cs)
    {kind : Kind} {ident : String} {exc : Option Exc}
    (he : (getEdge m amb cs (scopeSid kind ident exc)).1 = none)
    (beh : Effect → EffBeh) :
    ∃ st, alookup (currentState m amb cs).1 m.states = some st ∧
    ∃ cs', scopeExit m amb cs kind ident exc beh = .ok (cs', scopeOutOf exc) ∧
      (currentState m amb cs').1 =
        (if scopeSid kind ident exc ∈ st.terminals then m.initial
         else (currentState m amb cs).1) := by
  obtain ⟨st, hst, cs', hex, hcur, _⟩ := scopeExit_noEdge_spec hw hv he beh
  exact ⟨st, hst, cs', hex, hcur⟩

/-- Witness for the amended C8: no edge for an unknown binding at `home`, and
the symbol is not terminal there, so the cursor stays at `home`. -/
theorem c8_witness :
    SMWF loginMachine ∧ ValidCursors loginMachine (⟨"home", []⟩ : Cursors) ∧
      (getEdge loginMachine none (⟨"home", []⟩ : Cursors)
        (scopeSid .tool "nosuch" none)).1 = none ∧
      (∃ st, alookup (currentState loginMachine none
          (⟨"home", []⟩ : Cursors)).1 loginMachine.states = some st ∧
       ∃ cs', scopeExit loginMachine none (⟨"home", []⟩ : Cursors) .tool
           "nosuch" none (fun _ => .returns none) =
           .ok (cs', scopeOutOf none) ∧
         (currentState loginMachine none cs').1 =
           (if scopeSid .tool "nosuch" none ∈ st.terminals
            then loginMachine.initial
            else (currentState loginMachine none (⟨"home", []⟩ : Cursors)).1)) :=
  ⟨by decide, by decide, by decide,
    @c8_missing_edge_noop_amended loginMachine (by decide) none
      (⟨"home", []⟩ : Cursors) (by decide) .tool "nosuch" none (by decide)
      (fun _ => .returns none)⟩

/-- C10: for machines whose `q0` and usable edge targets name states, the
global and per-session cursors always name states of the machine and this is
preserved by every operation — `current_state` (with its lazy init to `q0`),
`reset`, `set_current_state` (which rejects unknown names with `ValueError`
and preserves validity on success), and transition-scope exits, which only
ever write an edge's `to_state` or `q0`. -/
theorem c10_cursor_validity_invariant {m : SM} (hw : SMWF m) {cs : Cursors}
    (hv : ValidCursors m cs) :
    (∀ amb, (alookup (currentState m amb cs).1 m.states).isSome ∧
      ValidCursors m (currentState m amb cs).2) ∧
    (∀ amb, ValidCursors m (resetCur m amb cs)) ∧
    (∀ amb name,
      ((alookup name m.states).isSome = false →
        setCurrentState m amb cs name =
          .error (.valueError ("Unknown state: " ++ name))) ∧
      ∀ cs', setCurrentState m amb cs name = .ok cs' → ValidCursors m cs') ∧
    (∀ (amb : Option String) (kind : Kind) (ident : String) (exc : Option Exc)
        (beh : Effect → EffBeh) (cs' : Cursors) (o : ScopeOut),
      scopeExit m amb cs kind ident exc beh = .ok (cs', o) →
      ValidCursors m cs') := by
  refine ⟨fun amb => currentState_spec hw hv amb,
    fun amb => resetCur_valid hw hv amb, ?_, ?_⟩
  · intro amb name
    refine ⟨(setCurrentState_spec m amb cs name).2, ?_⟩
    intro cs' hok
    by_cases hn : (alookup name m.states).isSome
    · obtain ⟨cs'', hok2, _, hval⟩ := (setCurrentState_spec m amb cs name).1 hn
      rw [hok2] at hok
      obtain rfl : cs'' = cs' := Except.ok.inj hok
      exact hval hv
    · have herr := (setCurrentState_spec m amb cs name).2 (by
        cases hx : (alookup name m.states).isSome
        · rfl
        · exact absurd hx hn)
      rw [herr] at hok
      exact absurd hok (by simp)
  · intro amb kind ident exc beh cs' o hok
    cases hge : (getEdge m amb cs (scopeSid kind ident exc)).1 with
    | some e =>
      obtain ⟨st, _, cs'', hex, _, hval⟩ := scopeExit_edge_spec hw hv hge beh
      rw [hex] at hok
      obtain rfl : cs'' = cs' := congrArg Prod.fst (Except.ok.inj hok)
      exact hval
    | none =>
      obtain ⟨st, _, cs'', hex, _, hval⟩ := scopeExit_noEdge_spec hw hv hge beh
      rw [hex] at hok
      obtain rfl : cs'' = cs' := congrArg Prod.fst (Except.ok.inj hok)
      exact hval

/-- Witness for C10 at the login machine's initial cursor state. -/
theorem c10_witness :
    SMWF loginMachine ∧ ValidCursors loginMachine loginMachine.initCursors ∧
      ((∀ amb, (alookup (currentState loginMachine amb
          loginMachine.initCursors).1 loginMachine.states).isSome ∧
        ValidCursors loginMachine
          (currentState loginMachine amb loginMachine.initCursors).2) ∧
      (∀ amb, ValidCursors loginMachine
        (resetCur loginMachine amb loginMachine.initCursors)) ∧
      (∀ amb name,
        ((alookup name loginMachine.states).isSome = false →
          setCurrentState loginMachine amb loginMachine.initCursors name =
            .error (.valueError ("Unknown state: " ++ name))) ∧
        ∀ cs', setCurrentState loginMachine amb loginMachine.initCursors
          name = .ok cs' → ValidCursors loginMachine cs') ∧
      (∀ (amb : Option String) (kind : Kind) (ident : String)
          (exc : Option Exc) (beh : Effect → EffBeh) (cs' : Cursors)
          (o : ScopeOut),
        scopeExit loginMachine amb loginMachine.initCursors kind ident exc
          beh = .ok (cs', o) →
        ValidCursors loginMachine cs')) :=
  ⟨by decide, by decide,
    @c10_cursor_validity_invariant loginMachine (by decide)
      loginMachine.initCursors (by decide)⟩

/-! ## BFS monotonicity and build-failure characterisation -/

theorem bfsEdgeStep_seen_mono (states : List (String × State))
    (symbols : List (SymId × InputSymbol)) (av : Availability)
    (acc : List String × List String × Bool) (e : Edge) {x : String}
    (h : x ∈ acc.2.1) : x ∈ (bfsEdgeStep states symbols av acc e).2.1 := by
  rw [bfsEdgeStep]
  split
  · exact h
  · split
    · exact h
    · split
      · exact List.mem_append_left _ h
      · exact h

theorem bfsFoldl_seen_mono (states : List (String × State))
    (symbols : List (SymId × InputSymbol)) (av : Availability) :
    ∀ (efs : List Edge) (acc : List String × List String × Bool) (x : String),
      x ∈ acc.2.1 → x ∈ (efs.foldl (bfsEdgeStep states symbols av) acc).2.1 := by
  intro efs
  induction efs with
  | nil => exact fun acc x h => h
  | cons e t ih =>
    intro acc x h
    rw [List.foldl_cons]
    exact ih _ x (bfsEdgeStep_seen_mono states symbols av acc e h)

theorem bfsGo_seen_mono (states : List (String × State)) (edges : List Edge)
    (symbols : List (SymId × InputSymbol)) (av : Availability) :
    ∀ (fuel : Nat) (q seen : List String) (flag : Bool) (x : String),
      x ∈ seen → x ∈ (bfsGo states edges symbols av fuel q seen flag).1 := by
  intro fuel
  induction fuel with
  | zero => exact fun q seen flag x h => h
  | succ n ih =>
    intro q seen flag x h
    cases q with
    | nil => exact h
    | cons s rest =>
      rw [bfsGo]
      exact ih _ _ _ x (bfsFoldl_seen_mono states symbols av _ _ x h)

theorem computeReachable_start_mem (states : List (String × State))
    (edges : List Edge) (symbols : List (SymId × InputSymbol))
    (av : Availability) (start : String) :
    start ∈ (computeReachable states edges symbols av start).1 :=
  bfsGo_seen_mono states edges symbols av _ _ _ _ start
    (List.mem_singleton_self start)

/-- The structural phase in its main branch (initial present and truthy). -/
theorem structuralChecks_main {b : Builder} (regs : Registries) {q0 : String}
    (h1 : b.initial = some q0) (h2 : q0 ≠ "")
    (h3 : (alookup q0 b.states).isSome) :
    structuralChecks b regs =
      (unknownSymIssues b ++
        (collectAvailableAndCheckRefs b.edges b.symbols regs).2 ++
        (if (reachOf b regs q0).2 then ([] : List Issue)
         else [Issue.mk "error" "No reachable terminal state from initial."]),
       availOf b regs, (reachOf b regs q0).1, (reachOf b regs q0).2) := by
  simp only [structuralChecks, h1]
  rw [if_neg h2]
  rw [if_neg (by
    cases hx : alookup q0 b.states
    · rw [hx] at h3
      simp at h3
    · simp)]

/-- When the pruning keeps `q0` reachable, the shared states dict still
resolves `q0` after validation. -/
theorem validate_statesAfter_keeps {b : Builder} (regs : Registries)
    {q0 : String} (hq : (alookup q0 b.states).isSome)
    (hreach : q0 ∈ (structuralChecks b regs).2.2.1) :
    (alookup q0 (validate b regs).statesAfter).isSome := by
  rw [validate]
  split
  · exact hq
  · split
    · exact hq
    · rw [pruneUnreachable]
      split
      · exact hq
      · split
        · exact hq
        · have hnotin : ¬ (unreachNames b.states
              (structuralChecks b regs).2.2.1).contains q0 = true := by
            intro hcon
            have hmem : q0 ∈ unreachNames b.states
                (structuralChecks b regs).2.2.1 := by
              have : (unreachNames b.states
                  (structuralChecks b regs).2.2.1).elem q0 = true := hcon
              exact List.mem_of_elem_eq_true this
            rw [unreachNames] at hmem
            have := List.of_mem_filter hmem
            rw [decide_eq_true_eq] at this
            apply this
            exact List.elem_eq_true_of_mem hreach
          obtain ⟨st, hst⟩ := Option.isSome_iff_exists.mp hq
          have hkeep := alookup_filter_key
            (fun k => decide (¬ (unreachNames b.states
              (structuralChecks b regs).2.2.1).contains k = true))
            hst (by
              rw [decide_eq_true_eq]
              exact hnotin)
          rw [hkeep]
          rfl

/-- `_validate` raises no aggregate error exactly when no error-level issue
was recorded. -/
theorem buildErrs_nil_iff (b1 : Builder) (regs : Registries) :
    buildErrs b1 regs = [] ↔
      (validate b1 regs).issues.any
        (fun i => decide (i.level = "error")) = false := by
  rw [buildErrs]
  constructor
  · intro h
    cases hany : (validate b1 regs).issues.any
        (fun i => decide (i.level = "error")) with
    | false => rfl
    | true =>
      obtain ⟨i, hmem, hP⟩ := List.any_eq_true.mp hany
      have h1 : i ∈ (validate b1 regs).issues.filter
          (fun i => decide (i.level = "error")) :=
        List.mem_filter.mpr ⟨hmem, hP⟩
      have h2 : i.message ∈ ((validate b1 regs).issues.filter
          (fun i => decide (i.level = "error"))).map (·.message) :=
        List.mem_map_of_mem _ h1
      rw [h] at h2
      exact absurd h2 (List.not_mem_nil _)
  · intro hany
    have hfil : (validate b1 regs).issues.filter
        (fun i => decide (i.level = "error")) = [] := by
      cases hf : (validate b1 regs).issues.filter
          (fun i => decide (i.level = "error")) with
      | nil => rfl
      | cons i t =>
        have hmem : i ∈ (validate b1 regs).issues.filter
            (fun i => decide (i.level = "error")) := by
          rw [hf]
          exact List.mem_cons_self i t
        have h1 := List.mem_filter.mp hmem
        have h2 : (validate b1 regs).issues.any
            (fun i => decide (i.level = "error")) = true :=
          List.any_eq_true.mpr ⟨i, h1.1, h1.2⟩
        rw [hany] at h2
        exact absurd h2 (by simp)
    rw [hfil]
    rfl

/-- When the structural phase records no error-level issue, the initial
state is declared, truthy and resolvable, and the BFS found a reachable
terminal edge. -/
theorem structural_ok_shape {b1 : Builder} (regs : Registries)
    (hstr : (structuralChecks b1 regs).1.any
      (fun i => decide (i.level = "error")) = false) :
    ∃ q0, b1.initial = some q0 ∧ q0 ≠ "" ∧
      (alookup q0 b1.states).isSome ∧ (reachOf b1 regs q0).2 = true := by
  cases hini : b1.initial with
  | none =>
    exfalso
    simp only [structuralChecks, hini] at hstr
    exact absurd hstr (by decide)
  | some q0 =>
    by_cases hq0 : q0 = ""
    · exfalso
      simp only [structuralChecks, hini, if_pos hq0] at hstr
      exact absurd hstr (by decide)
    · by_cases hlk : (alookup q0 b1.states).isNone = true
      · exfalso
        simp only [structuralChecks, hini, if_neg hq0, if_pos hlk] at hstr
        simp at hstr
      · have hsome : (alookup q0 b1.states).isSome := by
          cases hx : alookup q0 b1.states with
          | none => exact absurd (by rw [hx]; rfl) hlk
          | some v => rfl
        refine ⟨q0, rfl, hq0, hsome, ?_⟩
        cases hflag : (reachOf b1 regs q0).2 with
        | true => rfl
        | false =>
          exfalso
          rw [structuralChecks_main regs hini hq0 hsome] at hstr
          have hstr2 : (unknownSymIssues b1 ++
              (collectAvailableAndCheckRefs b1.edges b1.symbols regs).2 ++
              (if (reachOf b1 regs q0).2 then ([] : List Issue)
               else [Issue.mk "error"
                 "No reachable terminal state from initial."])).any
              (fun i => decide (i.level = "error")) = false := hstr
          have hmem : Issue.mk "error"
              "No reachable terminal state from initial." ∈
              (unknownSymIssues b1 ++
                (collectAvailableAndCheckRefs b1.edges b1.symbols regs).2 ++
                (if (reachOf b1 regs q0).2 then ([] : List Issue)
                 else [Issue.mk "error"
                   "No reachable terminal state from initial."])) := by
            apply List.mem_append_right
            rw [hflag]
            simp
          have htrue : (unknownSymIssues b1 ++
              (collectAvailableAndCheckRefs b1.edges b1.symbols regs).2 ++
              (if (reachOf b1 regs q0).2 then ([] : List Issue)
               else [Issue.mk "error"
                 "No reachable terminal state from initial."])).any
              (fun i => decide (i.level = "error")) = true :=
            List.any_eq_true.mpr ⟨_, hmem, by decide⟩
          rw [htrue] at hstr2
          exact absurd hstr2 (by simp)

/-- A declaration set with an initial state but no terminal edge anywhere:
`A` initial, `A --tool x/SUCCESS--> B`, no `add_terminal` call. -/
def c7Builder : Builder :=
  ((do
    let b := addState Builder.empty "A" true
    let b := addState b "B" false
    addEdge b "A" "B" (InputSymbol.for_kind .tool "x" .success) none :
    Except BuildErr Builder)).toOption.getD Builder.empty

def c7Regs : Registries := ⟨["x"], [], [], fun _ => false⟩

/-- `c7Builder` after reflexive completion. -/
def c7Completed : Builder :=
  (completeReflexiveEdges c7Builder).toOption.getD Builder.empty

/-- C7: for a well-formed builder whose reflexive completion yields `b1`,
`build()` returns an automaton iff validation recorded no error-level
issue; and whenever the BFS over available edges finds no reachable
terminal edge from the declared (truthy, resolvable) initial state,
`build()` fails with an aggregate error list containing the
no-reachable-terminal message instead of returning an automaton. -/
theorem c7_build_fails_iff_validation_error {b : Builder} {regs : Registries}
    {b1 : Builder} (hok : completeReflexiveEdges b = .ok b1) :
    ((∃ m, build b regs = .ok m) ↔
      (validate b1 regs).issues.any
        (fun i => decide (i.level = "error")) = false) ∧
    (∀ q0, b1.initial = some q0 → q0 ≠ "" →
      (alookup q0 b1.states).isSome →
      (reachOf b1 regs q0).2 = false →
      ∃ es, build b regs = .error (.invalid es) ∧
        "No reachable terminal state from initial." ∈ es) := by
  constructor
  · constructor
    · rintro ⟨m, hm⟩
      rw [build, hok] at hm
      have h2 : (if buildErrs b1 regs ≠ [] then
          (throw (.invalid (buildErrs b1 regs)) : Except BuildErr SM) else
          mkMachine b1 regs) = .ok m := hm
      by_cases he : buildErrs b1 regs ≠ []
      · rw [if_pos he] at h2
        have h3 : (Except.error (BuildErr.invalid (buildErrs b1 regs)) :
            Except BuildErr SM) = .ok m := h2
        exact absurd h3 (by simp)
      · exact (buildErrs_nil_iff b1 regs).mp (not_not.mp he)
    · intro hany
      have hstr : (structuralChecks b1 regs).1.any
          (fun i => decide (i.level = "error")) = false := by
        cases hsc : (structuralChecks b1 regs).1.any
            (fun i => decide (i.level = "error")) with
        | false => rfl
        | true =>
          have hv : (validate b1 regs).issues =
              (structuralChecks b1 regs).1 := by
            rw [validate, if_pos hsc]
          rw [hv, hsc] at hany
          exact absurd hany (by simp)
      obtain ⟨q0, hini, hq0, hsome, _⟩ := structural_ok_shape regs hstr
      have hreach : q0 ∈ (structuralChecks b1 regs).2.2.1 := by
        rw [structuralChecks_main regs hini hq0 hsome]
        show q0 ∈ (reachOf b1 regs q0).1
        exact computeReachable_start_mem _ _ _ _ _
      have hkeep : (alookup q0 (validate b1 regs).statesAfter).isSome :=
        validate_statesAfter_keeps regs hsome hreach
      obtain ⟨st, hst⟩ := Option.isSome_iff_exists.mp hkeep
      refine ⟨⟨q0, (validate b1 regs).statesAfter, b1.symbols,
        (validate b1 regs).builderEdges⟩, ?_⟩
      rw [build, hok]
      show (if buildErrs b1 regs ≠ [] then
          (throw (.invalid (buildErrs b1 regs)) : Except BuildErr SM) else
          mkMachine b1 regs) = _
      rw [if_neg (fun hc => hc ((buildErrs_nil_iff b1 regs).mpr hany))]
      simp only [mkMachine, hini]
      rw [if_neg hq0]
      show (if (alookup q0 (validate b1 regs).statesAfter).isNone then
          (throw (.valueError ("Unknown initial state: " ++ q0)) :
            Except BuildErr SM)
        else pure ⟨q0, (validate b1 regs).statesAfter, b1.symbols,
          (validate b1 regs).builderEdges⟩) = _
      rw [if_neg (by rw [hst]; simp)]
      rfl
  · intro q0 hini hq0 hsome hflag
    have hmem : Issue.mk "error"
        "No reachable terminal state from initial." ∈
        (structuralChecks b1 regs).1 := by
      rw [structuralChecks_main regs hini hq0 hsome]
      show _ ∈ (unknownSymIssues b1 ++
        (collectAvailableAndCheckRefs b1.edges b1.symbols regs).2 ++
        (if (reachOf b1 regs q0).2 then ([] : List Issue)
         else [Issue.mk "error"
           "No reachable terminal state from initial."]))
      apply List.mem_append_right
      rw [hflag]
      simp
    have hsc : (structuralChecks b1 regs).1.any
        (fun i => decide (i.level = "error")) = true :=
      List.any_eq_true.mpr ⟨_, hmem, by decide⟩
    have hv : (validate b1 regs).issues = (structuralChecks b1 regs).1 := by
      rw [validate, if_pos hsc]
    have hmsg : "No reachable terminal state from initial." ∈
        buildErrs b1 regs := by
      rw [buildErrs, hv]
      exact List.mem_map_of_mem _ (List.mem_filter.mpr ⟨hmem, by decide⟩)
    refine ⟨buildErrs b1 regs, ?_, hmsg⟩
    rw [build, hok]
    show (if buildErrs b1 regs ≠ [] then
        (throw (.invalid (buildErrs b1 regs)) : Except BuildErr SM) else
        mkMachine b1 regs) = _
    rw [if_pos (fun hc => by
      rw [hc] at hmsg
      exact absurd hmsg (List.not_mem_nil _))]
    rfl

/-- C7 witness: a concrete declaration set with no terminal edge, for which
`build()` indeed fails with the no-reachable-terminal message in the
aggregate list (and the iff's right-hand side is false). -/
theorem c7_witness :
    completeReflexiveEdges c7Builder = .ok c7Completed ∧
    ((((∃ m, build c7Builder c7Regs = .ok m) ↔
        (validate c7Completed c7Regs).issues.any
          (fun i => decide (i.level = "error")) = false) ∧
      (∀ q0, c7Completed.initial = some q0 → q0 ≠ "" →
        (alookup q0 c7Completed.states).isSome →
        (reachOf c7Completed c7Regs q0).2 = false →
        ∃ es, build c7Builder c7Regs = .error (.invalid es) ∧
          "No reachable terminal state from initial." ∈ es)) ∧
      c7Completed.initial = some "A" ∧
      (reachOf c7Completed c7Regs "A").2 = false) :=
  ⟨by decide,
    c7_build_fails_iff_validation_error (by decide),
    by decide, by decide⟩

end StateFSM
